import Mathlib

/-
Verification of the phonetic-versioning core: a shallow embedding of the
base-128 codec, the 4-step-cycle digit interleaver, the greedy syllable
parser, the separator placement engine and the separator usage balancer,
together with theorems about the properties claimed for them.

Conventions used throughout the embedding:
* JavaScript numbers are modelled as exact values: integers as `ℤ` (or `ℕ`
  where the source value is a length or an index) and fractional score
  arithmetic as `ℚ`.  The source only adds, multiplies and compares values
  whose magnitudes are tiny, so exact arithmetic is the intended reading.
* JavaScript arrays are `List`s; `unshift` is `cons`, `push` is appending a
  singleton, `arr[i]` on an in-range index is `List.getD i default`.
* Code that throws is modelled with `Except`.
-/

set_option maxHeartbeats 1600000

namespace PhoneticVersioning

/-! ### ASCII string helpers (JS `toLowerCase` / `replace(/[^a-z]/g, "")`) -/

/-- Model of JS `String.prototype.toLowerCase` on a single character,
for the ASCII range (the only range the repository's syllables and
separator characters use). -/
def jsToLowerChar (c : Char) : Char :=
  if 'A' ≤ c ∧ c ≤ 'Z' then Char.ofNat (c.toNat + 32) else c

/-- Character class of the regex `[a-z]`. -/
def isLowerAlpha (c : Char) : Bool := 'a' ≤ c && c ≤ 'z'

/-- `version.toLowerCase().replace(/[^a-z]/g, "")` from `decoder.js`,
returned as a character list. -/
def cleanLetters (s : String) : List Char :=
  (s.data.map jsToLowerChar).filter isLowerAlpha

/-! ### Base-128 codec (`src/encoder.js`) -/

/-- Loop of `toBase128`: `while (remaining > 0) { digits.unshift(remaining % 128);
remaining = Math.floor(remaining / 128); }`.  The loop is written with an
explicit fuel parameter; `toBase128` passes `num.toNat`, which bounds the
iteration count (each iteration at least halves a positive `remaining`).
On ℤ, `/` is Euclidean division, which agrees with `Math.floor` division for
the positive values the loop guard admits. -/
def toBase128Go (fuel : ℕ) (remaining : ℤ) (acc : List ℤ) : List ℤ :=
  match fuel with
  | 0 => acc
  | fuel + 1 =>
    if 0 < remaining then toBase128Go fuel (remaining / 128) (remaining % 128 :: acc)
    else acc

/-- `toBase128` from `src/encoder.js`: `if (num === 0) return [0];` then the
division loop.  For negative input the loop body never runs and the empty
list is returned (the source has no negative-input check). -/
def toBase128 (num : ℤ) : List ℤ :=
  if num = 0 then [0] else toBase128Go num.toNat num []

/-- `fromBase128` from `src/encoder.js`: `num = num * 128 + digits[i]` over
the digits, left to right. -/
def fromBase128 (digits : List ℤ) : ℤ :=
  digits.foldl (fun acc d => acc * 128 + d) 0

/-- `encodeToSyllableIndices` from `src/encoder.js`: convert and then
`while (indices.length < minLength) indices.unshift(0)`. -/
def encodeToSyllableIndices (num : ℤ) (minLength : ℕ) : List ℤ :=
  let indices := toBase128 num
  List.replicate (minLength - indices.length) 0 ++ indices

/-- `decodeSyllableIndices` from `src/encoder.js`. -/
def decodeSyllableIndices (indices : List ℤ) : ℤ := fromBase128 indices

/-! ### Digit interleaver (`src/encoder.js`) -/

/-- Body of the `while (left <= right)` loop shared by `interleaveDigits` and
the mapping simulation inside `deinterleaveDigits`.  The loop consumes one
index per iteration, so `right + 1 - left` iterations happen in total; the
callers pass exactly that number as fuel, and the `right < left` test keeps
the translation faithful to the loop guard.  The function is polymorphic
because the source runs the same untyped loop over digit arrays and over the
index array `[0, 1, ..., n-1]`. -/
def interleaveGo {α : Type} [Inhabited α] (d : List α) :
    ℕ → ℕ → ℕ → ℕ → List α → List α
  | 0, _, _, _, res => res
  | fuel + 1, left, right, step, res =>
    if right < left then res
    else if step % 4 = 0 then
      interleaveGo d fuel left (right - 1) (step + 1) (d.getD right default :: res)
    else if step % 4 = 1 then
      interleaveGo d fuel left (right - 1) (step + 1) (res ++ [d.getD right default])
    else if step % 4 = 2 then
      interleaveGo d fuel (left + 1) right (step + 1) (d.getD left default :: res)
    else
      interleaveGo d fuel (left + 1) right (step + 1) (res ++ [d.getD left default])

/-- `interleaveDigits` from `src/encoder.js`: length 0 and 1 are returned
unchanged; otherwise the result starts as `[digits[0]]` and the 4-step cycle
runs with `left = 1`, `right = n - 1`, `step = 0`. -/
def interleaveDigits {α : Type} [Inhabited α] (digits : List α) : List α :=
  if digits.length < 2 then digits
  else
    interleaveGo digits (digits.length - 1) 1 (digits.length - 1) 0
      [digits.getD 0 default]

/-- `deinterleaveDigits` from `src/encoder.js`: simulate the forward
algorithm on `[0, 1, ..., n-1]` (that simulation is textually the same loop
as `interleaveDigits`, so it is expressed by applying `interleaveDigits` to
`List.range n`), then scatter: `result[dummyInterleaved[i]] = digits[i]`.
The scatter starts from `List.replicate n default` in place of the
JavaScript `new Array(n)` of holes; every position is written because the
simulated mapping is a permutation of `[0, n)`. -/
def deinterleaveDigits {α : Type} [Inhabited α] (digits : List α) : List α :=
  if digits.length < 2 then digits
  else
    let dummyInterleaved := interleaveDigits (List.range digits.length)
    (dummyInterleaved.zip digits).foldl (fun res p => res.set p.1 p.2)
      (List.replicate digits.length default)

/-! ### Greedy parser and decoder (`src/decoder.js`) -/

/-- Error values thrown by `decoder.js`, one constructor per `throw` site. -/
inductive ParseErr : Type
  | emptyVersion : ParseErr
  | noValidSyllables : ParseErr
  | unrecognizedSyllable (remainder : String) : ParseErr
  | unknownSyllable (syllable : String) : ParseErr
deriving DecidableEq, Repr

/-- One step of the greedy matcher: `for (let len = 4; len >= 2; len--)`
with the `remaining.length >= len` guard and the
`data.syllables.includes(candidate)` test; returns the matched syllable and
the rest of the stream, or `none` when no tried length matches. -/
def greedyStep (inventory : List String) (remaining : List Char) :
    Option (String × List Char) :=
  if 4 ≤ remaining.length ∧ (remaining.take 4).asString ∈ inventory then
    some ((remaining.take 4).asString, remaining.drop 4)
  else if 3 ≤ remaining.length ∧ (remaining.take 3).asString ∈ inventory then
    some ((remaining.take 3).asString, remaining.drop 3)
  else if 2 ≤ remaining.length ∧ (remaining.take 2).asString ∈ inventory then
    some ((remaining.take 2).asString, remaining.drop 2)
  else none

/-- The `while (remaining.length > 0)` matching loop of
`parseVersionToSyllables`.  The fuel (first numeric argument) only bounds
the iteration count; the caller passes the stream length, which the loop
can never exhaust because every iteration removes at least two characters,
so the fuel-exhausted arm is dead code under the caller's invariant
`remaining.length ≤ fuel`. -/
def greedyGo (inventory : List String) : ℕ → List Char → Except ParseErr (List String)
  | _, [] => Except.ok []
  | 0, remaining => Except.error (ParseErr.unrecognizedSyllable remaining.asString)
  | fuel + 1, remaining =>
    match greedyStep inventory remaining with
    | some (syl, rest) =>
      match greedyGo inventory fuel rest with
      | Except.ok syls => Except.ok (syl :: syls)
      | Except.error e => Except.error e
    | none => Except.error (ParseErr.unrecognizedSyllable remaining.asString)

/-- `parseVersionToSyllables` from `src/decoder.js`: reject the empty
string, clean to lowercase letters, reject when nothing remains, then match
greedily. -/
def parseVersionToSyllables (inventory : List String) (version : String) :
    Except ParseErr (List String) :=
  if version = "" then Except.error ParseErr.emptyVersion
  else if cleanLetters version = [] then Except.error ParseErr.noValidSyllables
  else greedyGo inventory (cleanLetters version).length (cleanLetters version)

/-- Remainders the greedy matching loop can reach from a starting stream. -/
inductive GreedyReaches (inventory : List String) : List Char → List Char → Prop
  | refl (rem : List Char) : GreedyReaches inventory rem rem
  | step (rem : List Char) (syl : String) (rest target : List Char) :
      greedyStep inventory rem = some (syl, rest) →
      GreedyReaches inventory rest target → GreedyReaches inventory rem target

/-- The claim's failure condition at one position, in its own words: no
inventory syllable of any tried length (4, 3 or 2) is a prefix of the
remainder. -/
def noTriedPrefix (inventory : List String) (rem : List Char) : Prop :=
  ∀ s ∈ inventory, (s.length = 4 ∨ s.length = 3 ∨ s.length = 2) →
    ¬ ∃ t, s.data ++ t = rem

/-- The external precondition of the stripping-invariance claim: the
inventory is unambiguous for greedy longest-match, i.e. the greedy loop
re-segments any concatenation of inventory syllables into exactly that
sequence. -/
def GreedyUnambiguous (inventory : List String) : Prop :=
  ∀ syllables : List String, (∀ s ∈ syllables, s ∈ inventory) →
    greedyGo inventory ((String.join syllables).data).length (String.join syllables).data
      = Except.ok syllables

/-- A string made only of lowercase ASCII letters, as the data-model
invariant for inventory syllables. -/
def LowerWord (s : String) : Prop := ∀ c ∈ s.data, 'a' ≤ c ∧ c ≤ 'z'

/-- `createReverseLookup` from `src/decoder.js` builds a `Map` with
`map.set(syllable.toLowerCase(), index)` in index order, then `lookup.get`
is used per syllable; a `Map` keeps the last insertion for a duplicate key,
which the fold below reproduces. -/
def reverseLookupGet (inventory : List String) (syl : String) : Option ℤ :=
  (List.range inventory.length).foldl
    (fun acc i =>
      if ((inventory.getD i "").data.map jsToLowerChar).asString = syl then some (i : ℤ)
      else acc)
    none

/-- `decodeVersion` from `src/decoder.js`; `digitInterleaving` is the
`config.encoding.digitInterleaving` flag read from the loaded
configuration. -/
def decodeVersion (inventory : List String) (digitInterleaving : Bool)
    (version : String) : Except ParseErr ℤ := do
  let syllables ← parseVersionToSyllables inventory version
  let indices ← syllables.mapM (fun syl =>
    match reverseLookupGet inventory syl with
    | some i => Except.ok i
    | none => Except.error (ParseErr.unknownSyllable syl))
  let indices := if digitInterleaving then deinterleaveDigits indices else indices
  return decodeSyllableIndices indices

/-! ### Separator categories and the usage balancer (`src/separator-balancer.js`) -/

/-- The six separator categories.  The source keys its score, target and
multiplier objects by these six strings. -/
inductive SepCat : Type
  | apostrophe | dot | hyphen | space | tilde | colon
deriving DecidableEq, Repr

/-- Key order of the `scores` object literal built by `analyzeBoundary`;
`Object.entries` and `Object.values` enumerate in this insertion order. -/
def scoresOrder : List SepCat :=
  [SepCat.apostrophe, SepCat.dot, SepCat.hyphen, SepCat.space, SepCat.tilde, SepCat.colon]

/-- State of a `SeparatorBalancer` instance: the trailing usage history plus
the configuration captured by its constructor. -/
structure SeparatorBalancer : Type where
  historySize : ℕ
  history : List SepCat
  targets : SepCat → ℚ
  diversityStrength : ℚ

/-- Default target distribution from the balancer constructor (also the
values `separators.js` passes when building the global balancer). -/
def defaultTargets : SepCat → ℚ
  | SepCat.space => 50
  | SepCat.dot => 25
  | SepCat.colon => 10
  | SepCat.tilde => 8
  | SepCat.hyphen => 5
  | SepCat.apostrophe => 2

/-- `recordUsage`: push, then `shift()` once when the history exceeds its
bound. -/
def SeparatorBalancer.recordUsage (b : SeparatorBalancer) (sep : SepCat) :
    SeparatorBalancer :=
  let h := b.history ++ [sep]
  { b with history := if b.historySize < h.length then h.tail else h }

/-- `getCurrentDistribution` read through `current[sep] || 0`: the empty
history gives an empty object (hence 0 for every key), a missing key means
a zero count, and otherwise the value is `(count / length) * 100`. -/
def SeparatorBalancer.getCurrentDistribution (b : SeparatorBalancer)
    (sep : SepCat) : ℚ :=
  if b.history = [] then 0
  else (b.history.count sep : ℚ) / (b.history.length : ℚ) * 100

/-- `getDiversityMultipliers` for one category:
`1.0 - (diff / 100) * strength` clamped into `[0.5, 2.0]`. -/
def SeparatorBalancer.getDiversityMultipliers (b : SeparatorBalancer)
    (sep : SepCat) : ℚ :=
  let target := b.targets sep
  let actual := b.getCurrentDistribution sep
  let diff := actual - target
  let adjustment := 1 - diff / 100 * b.diversityStrength
  max (1/2) (min 2 adjustment)

/-- `adjustScores`: multiply each raw score by its multiplier.  The source
falls back to `1.0` for a missing multiplier, but the multipliers object
always carries every target key and a multiplier is never `0` (it is
clamped to at least `0.5`), so the fallback never fires. -/
def SeparatorBalancer.adjustScores (b : SeparatorBalancer)
    (scores : SepCat → ℚ) : SepCat → ℚ :=
  fun sep => scores sep * b.getDiversityMultipliers sep

/-- `SeparatorBalancer.chooseSeparator`: filter the adjusted scores by the
threshold, sort descending (a stable sort over the `scores` key order, so
ties keep the earlier key) and take the first; record the winner.  The fold
keeps the first strict maximum among the keys that clear the threshold,
which is exactly that winner. -/
def SeparatorBalancer.chooseSeparator (b : SeparatorBalancer)
    (rawScores : SepCat → ℚ) (threshold : ℚ) :
    Option SepCat × SeparatorBalancer :=
  let adjusted := b.adjustScores rawScores
  let winner := scoresOrder.foldl
    (fun best c =>
      if threshold ≤ adjusted c then
        match best with
        | none => some c
        | some b0 => if adjusted b0 < adjusted c then some c else best
      else best)
    none
  match winner with
  | none => (none, b)
  | some w => (some w, b.recordUsage w)

/-! ### Configuration shape (`config.json`, consumed via `config-loader.js`) -/

/-- A colon criterion entry: the only scoring entries whose `enabled` flag
the scoring code actually tests (via optional chaining). -/
structure ColonWeight : Type where
  weight : ℚ
  enabled : Bool

/-- Modelled from the spec: `config.json` itself is not under `src/`; this
structure records exactly the scoring fields the separator engine reads,
named `<category><Criterion>` for the JSON path `scoring.<category>.<criterion>.weight`,
plus the rhyme threshold, the tiered cluster pair lists and the
place-of-articulation table. -/
structure ScoringConfig : Type where
  apostropheVowelHiatus : ℚ
  apostropheElisionPattern : ℚ
  apostropheShortLeftBonus : ℚ
  apostropheInterestBonus : ℚ
  dotPrefixPattern : ℚ
  dotVeryShortLeft : ℚ
  dotInterestBonus : ℚ
  hyphenCriticalCluster : ℚ
  hyphenHardCluster : ℚ
  hyphenModerateCluster : ℚ
  hyphenHeavySimilarRhyme : ℚ
  hyphenHeavyPartialRhyme : ℚ
  hyphenHeavyAndHeavy : ℚ
  hyphenIdenticalConsonants : ℚ
  hyphenSamePlaceArticulation : ℚ
  hyphenInterestBonus : ℚ
  spaceCleanConsonantBoundary : ℚ
  spaceHeavyAndHeavySpace : ℚ
  spaceCleanSyllables : ℚ
  spaceNaturalWordSplit : ℚ
  tildeCreativePattern : ℚ
  tildeTechnicalSeparator : ℚ
  tildeAlternativeToDot : ℚ
  tildeAlternativeToHyphen : ℚ
  tildeHeavyRhyme : ℚ
  tildeCleanBoundary : ℚ
  tildeInterestBonus : ℚ
  colonSameConsonantPattern : ColonWeight
  colonSimilarStructure : ColonWeight
  colonRhythmicPair : ColonWeight
  colonInterestBonus : ColonWeight
  heavySyllableThreshold : ℕ
  criticalPairs : List String
  hardPairs : List String
  moderatePairs : List String
  placeOfArticulation : List (List Char)

/-- The three selection thresholds from `config.separators.thresholds`. -/
structure Thresholds : Type where
  first : ℚ
  second : ℚ
  third : ℚ

/-- `config.separators`. -/
structure SeparatorsConfig : Type where
  enabled : Bool
  maxSeparators : ℕ
  thresholds : Thresholds

/-- `config.encoding`; `compressionIntervals` entries are
`(threshold, interval)` pairs. -/
structure EncodingConfig : Type where
  baseInterval : ℤ
  maxSyllables : ℕ
  adaptiveCompression : Bool
  digitInterleaving : Bool
  compressionIntervals : List (ℕ × ℤ)

/-- The parts of the loaded configuration the embedded core reads. -/
structure Config : Type where
  phonotacticsVowels : List Char
  scoring : ScoringConfig
  separators : SeparatorsConfig
  encoding : EncodingConfig

/-! ### Boundary scoring (`src/separators.js`) -/

/-- `isVowel` from `separators.js`:
`config.phonotactics.vowels.includes(char?.toLowerCase())`. -/
def isVowel (cfg : Config) (c : Char) : Bool :=
  cfg.phonotacticsVowels.contains (jsToLowerChar c)

/-- JS `syl[syl.length - 1]`; an empty string gives `undefined`, modelled as
the NUL character (which is not a vowel and not a letter, matching how the
scoring predicates treat `undefined`). -/
def lastCharOf (s : String) : Char := s.data.getLastD (Char.ofNat 0)

/-- JS `syl[0]`, with the same `undefined` convention. -/
def firstCharOf (s : String) : Char := s.data.headD (Char.ofNat 0)

/-- `isHeavySyllable`: length at or above
`scoring.rhymePatterns.heavySyllableThreshold`. -/
def isHeavySyllable (cfg : Config) (syl : String) : Bool :=
  cfg.scoring.heavySyllableThreshold ≤ syl.length

/-- `getEnding`: `syllable.slice(-2)` (the whole string when shorter). -/
def getEnding (syl : String) : String :=
  (syl.data.drop (syl.data.length - 2)).asString

/-- `hasExactRhyme`. -/
def hasExactRhyme (syl1 syl2 : String) : Bool :=
  getEnding syl1 = getEnding syl2

/-- `hasPartialRhyme`: same non-vowel final character. -/
def hasPartialRhyme (cfg : Config) (syl1 syl2 : String) : Bool :=
  !isVowel cfg (lastCharOf syl1) && (lastCharOf syl1 = lastCharOf syl2)

/-- The three cluster difficulty tiers of `scoring.impossibleClusters`. -/
inductive ClusterTier : Type
  | critical | hard | moderate
deriving DecidableEq, Repr

/-- `checkClusterDifficulty`: look the lower-cased pair up in the tier
lists. -/
def checkClusterDifficulty (cfg : Config) (c1 c2 : Char) : Option ClusterTier :=
  let pair := ([c1, c2].map jsToLowerChar).asString
  if pair ∈ cfg.scoring.criticalPairs then some ClusterTier.critical
  else if pair ∈ cfg.scoring.hardPairs then some ClusterTier.hard
  else if pair ∈ cfg.scoring.moderatePairs then some ClusterTier.moderate
  else none

/-- `samePlaceOfArticulation`: both consonants inside one of the place
lists. -/
def samePlaceOfArticulation (cfg : Config) (c1 c2 : Char) : Bool :=
  cfg.scoring.placeOfArticulation.any (fun place => place.contains c1 && place.contains c2)

/-- The `weights` object of a Rule B match; a key is present only for the
categories the pattern boosts (all stored bonus values are nonzero, so JS
truthiness of a key coincides with its presence). -/
structure RuleBWeights : Type where
  hyphen : Option ℚ := none
  space : Option ℚ := none
  dot : Option ℚ := none

/-- A Rule B candidate or result: `{ position, type, weights, priority }`
with `position = -1` and `type = null` meaning no match. -/
structure RuleBMatch : Type where
  position : ℤ
  type : Option String
  weights : RuleBWeights
  priority : ℕ

/-- The repeated `if (match.priority > bestMatch.priority) bestMatch = match`
update. -/
def ruleBUpdate (best cand : RuleBMatch) : RuleBMatch :=
  if best.priority < cand.priority then cand else best

/-- `getRuleBPosition` from `separators.js`: scan for non-consecutive
identical pairs (priority 110), consecutive identical runs (priorities
100/90/80 for 4x/3x/2x) and similar runs of equal length and first letter
(priorities 50/40 for 4x/3x), keeping the strictly highest priority found in
scan order. -/
def getRuleBPosition (syllables : List String) : RuleBMatch :=
  if syllables.length < 2 then ⟨-1, none, {}, 0⟩
  else
    let n := syllables.length
    let best0 := (List.range n).foldl
      (fun best i =>
        let syl := syllables.getD i ""
        let positions := (List.range n).filter (fun j => syllables.getD j "" = syl)
        if 2 ≤ positions.length then
          (List.range (positions.length - 1)).foldl
            (fun best p =>
              let pos1 := positions.getD p 0
              let pos2 := positions.getD (p + 1) 0
              if 1 < pos2 - pos1 then
                ruleBUpdate best
                  ⟨(pos2 : ℤ), some "non-consecutive-identical",
                    { hyphen := some 120, space := some 25 }, 110⟩
              else best)
            best
        else best)
      (⟨-1, none, {}, 0⟩ : RuleBMatch)
    let best1 := (List.range (n - 1)).foldl
      (fun best start =>
        let firstSyl := syllables.getD start ""
        let identicalCount :=
          1 + ((syllables.drop (start + 1)).takeWhile (fun s => s = firstSyl)).length
        let best := if 4 ≤ identicalCount then
            ruleBUpdate best
              ⟨(start : ℤ) + 2, some "4x-identical",
                { hyphen := some 100, space := some 20 }, 100⟩
          else best
        let best := if 3 ≤ identicalCount then
            ruleBUpdate best
              ⟨(start : ℤ) + 1, some "3x-identical",
                { hyphen := some 100, space := some 20 }, 90⟩
          else best
        if 2 ≤ identicalCount then
          ruleBUpdate best
            ⟨(start : ℤ) + 1, some "2x-identical",
              { hyphen := some 100, space := some 20 }, 80⟩
        else best)
      best0
    let best2 := (List.range (n - 2)).foldl
      (fun best start =>
        let firstSyl := syllables.getD start ""
        let firstChar := firstCharOf firstSyl
        let sylLen := firstSyl.length
        let matchCount :=
          1 + ((syllables.drop (start + 1)).takeWhile
            (fun s => s.length = sylLen && firstCharOf s = firstChar)).length
        let best := if 4 ≤ matchCount then
            ruleBUpdate best
              ⟨(start : ℤ) + 2, some "4x",
                { hyphen := some 40, space := some 20 }, 50⟩
          else best
        if 3 ≤ matchCount then
          ruleBUpdate best
            ⟨(start : ℤ) + 1, some "3x",
              { dot := some 40, hyphen := some 40, space := some 20 }, 40⟩
        else best)
      best1
    best2

/-- `analyzeBoundary` from `separators.js`: the per-category scores for the
boundary between `leftSyllables` and `rightSyllables`, with the optional
whole-sequence Rule B bonuses applied first and each category's interest
bonus conditioned on the score accumulated so far, exactly in source
order. -/
def analyzeBoundary (cfg : Config) (leftSyllables rightSyllables : List String)
    (allSyllables : Option (List String)) : SepCat → ℚ :=
  let w := cfg.scoring
  let lastSyl := leftSyllables.getLastD ""
  let firstSyl := rightSyllables.headD ""
  let lastChar := lastCharOf lastSyl
  let firstChar := firstCharOf firstSyl
  let leftWord := String.join leftSyllables
  let rightWord := String.join rightSyllables
  let ruleBInfo := match allSyllables with
    | some all => getRuleBPosition all
    | none => ⟨-1, none, {}, 0⟩
  let currentPosition := leftSyllables.length
  let ruleBHere := ruleBInfo.position = (currentPosition : ℤ) ∧ ruleBInfo.type ≠ none
  let dotRuleB : ℚ :=
    if ruleBHere ∧ ruleBInfo.weights.dot ≠ none ∧ currentPosition = 1 then
      ruleBInfo.weights.dot.getD 0
    else 0
  let hyphenRuleB : ℚ :=
    if ruleBHere ∧ ruleBInfo.weights.hyphen ≠ none then ruleBInfo.weights.hyphen.getD 0
    else 0
  let spaceRuleB : ℚ :=
    if ruleBHere ∧ ruleBInfo.weights.space ≠ none then ruleBInfo.weights.space.getD 0
    else 0
  let ap :=
    (if isVowel cfg lastChar && isVowel cfg firstChar then w.apostropheVowelHiatus else 0)
    + (if !isVowel cfg lastChar && isVowel cfg firstChar then w.apostropheElisionPattern else 0)
    + (if leftWord.length ≤ 3 && isVowel cfg firstChar then w.apostropheShortLeftBonus else 0)
  let apostropheScore := if 0 < ap then ap + w.apostropheInterestBonus else ap
  let dt := dotRuleB
    + (if leftSyllables.length = 1 ∧ 2 ≤ rightSyllables.length
          ∧ 2 ≤ leftWord.length ∧ leftWord.length ≤ 5 then w.dotPrefixPattern else 0)
    + (if leftSyllables.length = 1 ∧ leftWord.length = 2 then w.dotVeryShortLeft else 0)
  let dotScore := if 0 < dt then dt + w.dotInterestBonus else dt
  let isHeavy1 := isHeavySyllable cfg lastSyl
  let isHeavy2 := isHeavySyllable cfg firstSyl
  let clusterDiff := checkClusterDifficulty cfg lastChar firstChar
  let hy := hyphenRuleB
    + (match clusterDiff with
        | some ClusterTier.critical => w.hyphenCriticalCluster
        | some ClusterTier.hard => w.hyphenHardCluster
        | some ClusterTier.moderate => w.hyphenModerateCluster
        | none => 0)
    + (if isHeavy1 && isHeavy2 && hasExactRhyme lastSyl firstSyl then
        w.hyphenHeavySimilarRhyme else 0)
    + (if isHeavy1 && isHeavy2 && !hasExactRhyme lastSyl firstSyl
          && hasPartialRhyme cfg lastSyl firstSyl then w.hyphenHeavyPartialRhyme else 0)
    + (if isHeavy1 && isHeavy2 then w.hyphenHeavyAndHeavy else 0)
    + (if lastChar = firstChar ∧ !isVowel cfg lastChar then w.hyphenIdenticalConsonants else 0)
    + (if !isVowel cfg lastChar && !isVowel cfg firstChar
          && samePlaceOfArticulation cfg lastChar firstChar then
        w.hyphenSamePlaceArticulation else 0)
  let hyphenScore := if 0 < hy then hy + w.hyphenInterestBonus else hy
  let spaceScore := spaceRuleB
    + (if !isVowel cfg lastChar && !isVowel cfg firstChar && clusterDiff = none then
        w.spaceCleanConsonantBoundary else 0)
    + (if isHeavy1 && isHeavy2 && !hasExactRhyme lastSyl firstSyl then
        w.spaceHeavyAndHeavySpace else 0)
    + (if !isVowel cfg lastChar && !isVowel cfg firstChar then w.spaceCleanSyllables else 0)
    + (if 4 ≤ leftWord.length ∧ 4 ≤ rightWord.length then w.spaceNaturalWordSplit else 0)
  let tildeScore := w.tildeCreativePattern + w.tildeTechnicalSeparator
    + (if leftSyllables.length = 1 ∧ 2 ≤ rightSyllables.length
          ∧ 2 ≤ leftWord.length ∧ leftWord.length ≤ 5 then w.tildeAlternativeToDot else 0)
    + (if clusterDiff = some ClusterTier.moderate ∨ clusterDiff = some ClusterTier.hard then
        w.tildeAlternativeToHyphen else 0)
    + (if isHeavy1 && isHeavy2
          && (hasExactRhyme lastSyl firstSyl || hasPartialRhyme cfg lastSyl firstSyl) then
        w.tildeHeavyRhyme else 0)
    + (if !isVowel cfg lastChar && !isVowel cfg firstChar && clusterDiff = none then
        w.tildeCleanBoundary else 0)
    + w.tildeInterestBonus
  let lastConsonants := (lastSyl.data.filter (fun c => !isVowel cfg c)).asString
  let firstConsonants := (firstSyl.data.filter (fun c => !isVowel cfg c)).asString
  let colonScore :=
    (if lastConsonants = firstConsonants ∧ 2 ≤ lastConsonants.length
        ∧ w.colonSameConsonantPattern.enabled then w.colonSameConsonantPattern.weight else 0)
    + (if lastSyl.length = firstSyl.length
          ∧ lastConsonants.length = firstConsonants.length
          ∧ w.colonSimilarStructure.enabled then w.colonSimilarStructure.weight else 0)
    + (if 2 ≤ lastSyl.length ∧ 2 ≤ firstSyl.length ∧ w.colonRhythmicPair.enabled then
        w.colonRhythmicPair.weight else 0)
    + (if w.colonInterestBonus.enabled then w.colonInterestBonus.weight else 0)
  fun cat =>
    match cat with
    | SepCat.apostrophe => apostropheScore
    | SepCat.dot => dotScore
    | SepCat.hyphen => hyphenScore
    | SepCat.space => spaceScore
    | SepCat.tilde => tildeScore
    | SepCat.colon => colonScore

/-! ### Separator placement (`src/separators.js`) -/

/-- The apostrophe character, by code point. -/
def apostropheChar : Char := Char.ofNat 39

/-- The `separatorMap` of `chooseSeparator` (note the dot carries a trailing
space). -/
def separatorString : SepCat → String
  | SepCat.apostrophe => String.mk [apostropheChar]
  | SepCat.dot => ". "
  | SepCat.hyphen => "-"
  | SepCat.space => " "
  | SepCat.tilde => "~"
  | SepCat.colon => ":"

/-- `chooseSeparator` from `separators.js`: with balancing it defers to the
(threaded) global balancer; without, it takes the first raw-score maximum
clearing the threshold.  A `null` winner becomes the empty string. -/
def chooseSeparatorStr (bal : SeparatorBalancer) (scores : SepCat → ℚ)
    (threshold : ℚ) (useBalancing : Bool := true) : String × SeparatorBalancer :=
  if useBalancing then
    match bal.chooseSeparator scores threshold with
    | (none, b) => ("", b)
    | (some w, b) => (separatorString w, b)
  else
    let winner := scoresOrder.foldl
      (fun best c =>
        if threshold ≤ scores c then
          match best with
          | none => some c
          | some b0 => if scores b0 < scores c then some c else best
        else best)
      none
    match winner with
    | none => ("", bal)
    | some w => (separatorString w, bal)

/-- A `separators` array entry of `addSmartSeparators`. -/
structure PlacedSep : Type where
  position : ℕ
  separator : String
  score : ℚ
deriving DecidableEq

/-- The `for (let i = 1; i < syllables.length; i++)` scan of one placement
round: skip positions within 1 of an already placed separator, otherwise
score the boundary, ask `chooseSeparator` (threading the balancer, which
records a usage at every evaluated boundary) and keep the position with the
strictly largest raw maximum score among those that yielded a separator.
The accumulator is `(balancer, bestScore, bestPosition, bestSeparator)` with
`bestPosition = -1` initially. -/
def scanPositions (cfg : Config) (syls : List String) (threshold : ℚ)
    (placed : List PlacedSep) (bal : SeparatorBalancer) :
    SeparatorBalancer × ℚ × ℤ × String :=
  (List.range' 1 (syls.length - 1)).foldl
    (fun st (i : ℕ) =>
      if placed.any (fun s => ((s.position : ℤ) - (i : ℤ)).natAbs ≤ 1) then st
      else
        let scores := analyzeBoundary cfg (syls.take i) (syls.drop i) (some syls)
        let chosen := chooseSeparatorStr st.1 scores threshold
        let maxScore := max (scores SepCat.apostrophe) (max (scores SepCat.dot)
          (max (scores SepCat.hyphen) (max (scores SepCat.space)
            (max (scores SepCat.tilde) (scores SepCat.colon)))))
        if st.2.1 < maxScore ∧ chosen.1 ≠ "" then (chosen.2, maxScore, (i : ℤ), chosen.1)
        else (chosen.2, st.2.1, st.2.2.1, st.2.2.2))
    (bal, 0, -1, "")

/-- The `for (let round = 0; ...)` loop of `addSmartSeparators`; the fuel is
the number of remaining rounds, so the first call passes `maxSeparators`.
A round with no position found, or whose best raw score is below the
round's threshold, breaks the loop. -/
def smartRoundsGo (cfg : Config) (syls : List String) :
    ℕ → ℕ → List PlacedSep → SeparatorBalancer →
    List PlacedSep × SeparatorBalancer
  | 0, _, placed, bal => (placed, bal)
  | fuel + 1, round, placed, bal =>
    let threshold :=
      if round = 0 then cfg.separators.thresholds.first
      else if round = 1 then cfg.separators.thresholds.second
      else cfg.separators.thresholds.third
    let scan := scanPositions cfg syls threshold placed bal
    if scan.2.2.1 = -1 ∨ scan.2.1 < threshold then (placed, scan.1)
    else
      smartRoundsGo cfg syls fuel (round + 1)
        (placed ++ [⟨scan.2.2.1.toNat, scan.2.2.2, scan.2.1⟩]) scan.1

/-- Insertion step for sorting the placed separators by position
(`separators.sort((a, b) => a.position - b.position)`); the placed
positions are pairwise more than 1 apart, hence distinct, so the sorted
order is unique and any comparison sort produces this one. -/
def insertByPosition (x : PlacedSep) : List PlacedSep → List PlacedSep
  | [] => [x]
  | y :: ys => if x.position ≤ y.position then x :: y :: ys else y :: insertByPosition x ys

/-- Insertion sort by position. -/
def sortByPosition (l : List PlacedSep) : List PlacedSep :=
  l.foldr insertByPosition []

/-- The final string assembly of `addSmartSeparators`: emit the syllable
slice up to each separator position followed by its separator string, then
the remaining syllables (`slice(lastPos, pos)` is `drop`-then-`take`). -/
def buildGo (syls : List String) : List PlacedSep → ℕ → String → String
  | [], lastPos, result => result ++ String.join (syls.drop lastPos)
  | sep :: rest, lastPos, result =>
    buildGo syls rest sep.position
      (result ++ String.join ((syls.drop lastPos).take (sep.position - lastPos))
        ++ sep.separator)

/-- `addSmartSeparators` from `separators.js`, with the global balancer
passed and returned explicitly.  The repository's callers pass no options,
so `maxSeparators` and the thresholds come from the configuration. -/
def addSmartSeparators (cfg : Config) (bal : SeparatorBalancer)
    (syllables : List String) : String × SeparatorBalancer :=
  if ¬cfg.separators.enabled then (String.join syllables, bal)
  else if syllables.length < 2 then (String.join syllables, bal)
  else
    let run := smartRoundsGo cfg syllables cfg.separators.maxSeparators 0 [] bal
    if run.1 = [] then (String.join syllables, run.2)
    else (buildGo syllables (sortByPosition run.1) 0 "", run.2)

/-- A well-formed placed separator for a syllable sequence: it sits at an
interior boundary and its string is one of the six separator strings. -/
def SepOK (syls : List String) (p : PlacedSep) : Prop :=
  1 ≤ p.position ∧ p.position < syls.length ∧ ∃ c, p.separator = separatorString c

/-- Placed separators pairwise more than one position apart. -/
def FarApart (l : List PlacedSep) : Prop :=
  List.Pairwise (fun a b => 1 < ((a.position : ℤ) - (b.position : ℤ)).natAbs) l

/-! ### Generator (`src/generator.js`, `src/config-loader.js`) -/

/-- The `options` object of `generateVersion`; `none` means the key was
absent so the configuration default applies.  `maxSyllables` is read by the
source only to pass it to `findOptimalInterval` on the adaptive-interval
default path, which the embedding of `generateVersion` below leaves
undefined; the field is kept so the options record mirrors the source's
destructuring. -/
structure GenerateOptions : Type where
  buildInterval : Option ℤ := none
  hyphenated : Bool := false
  smartSeparators : Option Bool := none
  minSyllables : ℕ := 0
  maxSyllables : Option ℕ := none
  adaptiveCompression : Option Bool := none

/-- `generateVersion` from `src/generator.js`, with the loaded
configuration, the syllable inventory and the global balancer passed
explicitly; the timestamp is required (the `Date.now()` default and the
`returnMetadata` variant are not modelled).  JS object truthiness of
`options.buildInterval` is modelled by option presence.

When `options.buildInterval` is absent and adaptive compression resolves to
on, the source takes `buildInterval = findOptimalInterval(ts,
maxSyllables)` from `config-loader.js` (staged in
`src/src/separator-balancer.js`), whose `estimateSyllableCount` computes
`Math.ceil(Math.log(num + 1) / Math.log(128))` with double-precision
logarithms; ECMA-262 specifies `Math.log` only as an
implementation-approximated value, so near powers of 128 the integer that
expression yields is not determined by the source text.  The embedding is
therefore partial: it returns `none` on exactly that branch and `some` of
the source's result on every other call, so no theorem can rest on a
guessed value for the floating-point computation. -/
def generateVersion (cfg : Config) (inventory : List String)
    (bal : SeparatorBalancer) (timestamp : ℤ) (options : GenerateOptions) :
    Option (String × SeparatorBalancer) :=
  let smart := options.smartSeparators.getD cfg.separators.enabled
  let adaptive := options.adaptiveCompression.getD cfg.encoding.adaptiveCompression
  let buildIntervalOpt : Option ℤ :=
    match options.buildInterval with
    | some b => some b
    | none => if adaptive then none else some cfg.encoding.baseInterval
  match buildIntervalOpt with
  | none => none
  | some buildInterval =>
    let normalized := Int.fdiv timestamp buildInterval
    let indices := encodeToSyllableIndices normalized options.minSyllables
    let indices := if cfg.encoding.digitInterleaving then interleaveDigits indices
      else indices
    let syllables := indices.map (fun idx => inventory.getD idx.toNat "")
    some (if smart then addSmartSeparators cfg bal syllables
      else if options.hyphenated then (String.intercalate "-" syllables, bal)
      else (String.join syllables, bal))

/-! ### Concrete modelled configuration and inventory

`config.json` and `data/syllables.json` are external inputs of the core and
are not under `src/`; the concrete values below are used for witnesses and
counterexamples. -/

/-- Modelled from the spec: the scoring table of `config.json`, reconstructed
from the repository's separator-system documentation (the per-criterion
weight tables, the tiered cluster pair lists and the three
place-of-articulation groups).  `tildeTechnicalSeparator` is documented only
as part of the tilde's small flat baseline and is modelled as 20; the
disabled colon criteria carry the documented disabled flags. -/
def exampleScoring : ScoringConfig where
  apostropheVowelHiatus := 200
  apostropheElisionPattern := 120
  apostropheShortLeftBonus := 30
  apostropheInterestBonus := 50
  dotPrefixPattern := 200
  dotVeryShortLeft := 50
  dotInterestBonus := 30
  hyphenCriticalCluster := 160
  hyphenHardCluster := 140
  hyphenModerateCluster := 100
  hyphenHeavySimilarRhyme := 140
  hyphenHeavyPartialRhyme := 140
  hyphenHeavyAndHeavy := 60
  hyphenIdenticalConsonants := 120
  hyphenSamePlaceArticulation := 40
  hyphenInterestBonus := 5
  spaceCleanConsonantBoundary := 300
  spaceHeavyAndHeavySpace := 280
  spaceCleanSyllables := 120
  spaceNaturalWordSplit := 80
  tildeCreativePattern := 30
  tildeTechnicalSeparator := 20
  tildeAlternativeToDot := 60
  tildeAlternativeToHyphen := 60
  tildeHeavyRhyme := 80
  tildeCleanBoundary := 40
  tildeInterestBonus := 15
  colonSameConsonantPattern := ⟨300, true⟩
  colonSimilarStructure := ⟨30, false⟩
  colonRhythmicPair := ⟨20, false⟩
  colonInterestBonus := ⟨10, false⟩
  heavySyllableThreshold := 4
  criticalPairs := ["tl", "dl", "pn", "bn", "gn", "sr", "zr", "pb", "td", "kg"]
  hardPairs := ["kd", "kt", "bd", "bk", "gd", "gt", "pd", "pt", "nm", "mn"]
  moderatePairs := ["fs", "sz", "fp", "vb", "ft", "vd"]
  placeOfArticulation := [['p', 'b', 'm'], ['t', 'd', 'n', 's', 'z', 'l', 'r'], ['k', 'g']]

/-- Modelled from the spec: the documented non-scoring configuration —
separators enabled with at most 2 placements and thresholds 100/70/50,
base interval 900 s, at most 6 syllables, adaptive compression and digit
interleaving enabled, vowels `aeiou`. -/
def exampleConfig : Config where
  phonotacticsVowels := ['a', 'e', 'i', 'o', 'u']
  scoring := exampleScoring
  separators := { enabled := true, maxSeparators := 2, thresholds := ⟨100, 70, 50⟩ }
  encoding :=
    { baseInterval := 900, maxSyllables := 6, adaptiveCompression := true
      digitInterleaving := true, compressionIntervals := [] }

/-- Modelled from the spec: `data/syllables.json` is an external curated
inventory of unique lowercase syllables; this small legal inventory supplies
the concrete indices the counterexamples and witnesses touch. -/
def exampleInventory : List String := ["bo", "bik", "bak"]

/-- The balancer state the `separators.js` module starts from: empty
history, window 100, strength 0.8 and the default targets (the state built
by `getBalancer()` on first use). -/
def freshBalancer : SeparatorBalancer where
  historySize := 100
  history := []
  targets := defaultTargets
  diversityStrength := 4/5

/-- Options used by the concrete generator runs: a fixed 900 s build
interval, everything else defaulted. -/
def exampleOptions : GenerateOptions := { buildInterval := some 900 }

/-- Options selecting the plain (no smart separators) mode. -/
def plainOptions : GenerateOptions :=
  { buildInterval := some 900, smartSeparators := some false }

/-- The balancer state after the engine has recorded exactly one space
(the state `freshBalancer` reaches after one two-syllable placement). -/
def spaceOnceBalancer : SeparatorBalancer :=
  { freshBalancer with history := [SepCat.space] }

/-- A balancer whose 100-entry history consists entirely of one category,
with the default targets and a given strength (the balancer-scenario state
of the spec). -/
def fullHistoryBalancer (c : SepCat) (strength : ℚ) : SeparatorBalancer where
  historySize := 100
  history := List.replicate 100 c
  targets := defaultTargets
  diversityStrength := strength

/-- The diversity-multiplier formula exactly as the claim states it:
`clamp(1 − (actual% − target%)/100 × strength, 0.5, 2.0)`. -/
def claimedMultiplier (actualPct targetPct strength : ℚ) : ℚ :=
  max (1/2) (min 2 (1 - (actualPct - targetPct) / 100 * strength))

/-! ## Lemmas about the base-128 codec -/

lemma toBase128Go_append (fuel : ℕ) : ∀ (r : ℤ) (acc : List ℤ),
    toBase128Go fuel r acc = toBase128Go fuel r [] ++ acc := by
  induction fuel with
  | zero => intro r acc; rfl
  | succ fuel ih =>
    intro r acc
    simp only [toBase128Go]
    by_cases h : 0 < r
    · rw [if_pos h, if_pos h, ih (r / 128) (r % 128 :: acc), ih (r / 128) [r % 128]]
      simp
    · rw [if_neg h, if_neg h]
      simp

lemma fromBase128_snoc (l : List ℤ) (d : ℤ) :
    fromBase128 (l ++ [d]) = fromBase128 l * 128 + d := by
  simp [fromBase128, List.foldl_append]

lemma toBase128Go_val : ∀ (fuel : ℕ) (r : ℤ), 0 ≤ r → r.toNat ≤ fuel →
    fromBase128 (toBase128Go fuel r []) = r := by
  intro fuel
  induction fuel with
  | zero =>
    intro r h0 hf
    have hr : r = 0 := by omega
    subst hr
    rfl
  | succ fuel ih =>
    intro r h0 hf
    simp only [toBase128Go]
    by_cases h : 0 < r
    · rw [if_pos h, toBase128Go_append, fromBase128_snoc,
        ih (r / 128) (by omega) (by omega)]
      omega
    · have hr : r = 0 := by omega
      subst hr
      rfl

lemma fromBase128_toBase128 (num : ℤ) (h : 0 ≤ num) :
    fromBase128 (toBase128 num) = num := by
  by_cases h0 : num = 0
  · subst h0; rfl
  · simp only [toBase128, if_neg h0]
    exact toBase128Go_val num.toNat num h le_rfl

lemma fromBase128_replicate_zero (k : ℕ) (l : List ℤ) :
    fromBase128 (List.replicate k 0 ++ l) = fromBase128 l := by
  induction k with
  | zero => simp
  | succ k ih =>
    simpa [fromBase128, List.replicate_succ] using ih

lemma toBase128Go_bounds : ∀ (fuel : ℕ) (r : ℤ) (acc : List ℤ),
    (∀ d ∈ acc, 0 ≤ d ∧ d < 128) → ∀ d ∈ toBase128Go fuel r acc, 0 ≤ d ∧ d < 128 := by
  intro fuel
  induction fuel with
  | zero => intro r acc hacc; exact hacc
  | succ fuel ih =>
    intro r acc hacc
    simp only [toBase128Go]
    by_cases h : 0 < r
    · rw [if_pos h]
      refine ih (r / 128) (r % 128 :: acc) ?_
      intro d hd
      rcases List.mem_cons.mp hd with hd | hd
      · subst hd; omega
      · exact hacc d hd
    · rw [if_neg h]; exact hacc

lemma toBase128_bounds (num : ℤ) : ∀ d ∈ toBase128 num, 0 ≤ d ∧ d < 128 := by
  by_cases h0 : num = 0
  · subst h0
    intro d hd
    have hd0 : d = 0 := by simpa [toBase128] using hd
    omega
  · simp only [toBase128, if_neg h0]
    exact toBase128Go_bounds num.toNat num [] (by simp)

lemma toBase128_ne_nil (num : ℤ) (h : 0 ≤ num) : toBase128 num ≠ [] := by
  by_cases h0 : num = 0
  · subst h0; simp [toBase128]
  · have hpos : 0 < num := by omega
    simp only [toBase128, if_neg h0]
    have ht : num.toNat = (num.toNat - 1) + 1 := by omega
    rw [ht]
    simp only [toBase128Go, if_pos hpos]
    rw [toBase128Go_append]
    simp

lemma toBase128_of_neg (num : ℤ) (h : num < 0) : toBase128 num = [] := by
  have h0 : ¬ num = 0 := by omega
  simp only [toBase128, if_neg h0]
  have ht : num.toNat = 0 := by omega
  rw [ht]
  rfl

lemma encodeToSyllableIndices_val (num : ℤ) (h : 0 ≤ num) (m : ℕ) :
    fromBase128 (encodeToSyllableIndices num m) = num := by
  simp only [encodeToSyllableIndices]
  rw [fromBase128_replicate_zero, fromBase128_toBase128 num h]

/-! ## Lemmas about the interleaver -/

lemma getD_map_of_lt {α β : Type} [Inhabited α] [Inhabited β] (l : List α)
    (f : α → β) (i : ℕ) (h : i < l.length) :
    (l.map f).getD i default = f (l.getD i default) := by
  rw [List.getD_eq_getElem (l.map f) default (by simpa using h),
    List.getD_eq_getElem l default h, List.getElem_map]

lemma interleaveGo_map {α β : Type} [Inhabited α] [Inhabited β] (d : List α)
    (f : α → β) : ∀ (fuel left right step : ℕ) (res : List α), right < d.length →
    interleaveGo (d.map f) fuel left right step (res.map f) =
      (interleaveGo d fuel left right step res).map f := by
  intro fuel
  induction fuel with
  | zero => intros; rfl
  | succ fuel ih =>
    intro left right step res hr
    simp only [interleaveGo]
    by_cases hlr : right < left
    · rw [if_pos hlr, if_pos hlr]
    · rw [if_neg hlr, if_neg hlr]
      have hl : left < d.length := lt_of_le_of_lt (not_lt.mp hlr) hr
      by_cases h0 : step % 4 = 0
      · rw [if_pos h0, if_pos h0, getD_map_of_lt d f right hr]
        rw [show (f (d.getD right default) :: res.map f)
            = (d.getD right default :: res).map f from rfl]
        exact ih _ _ _ _ (by omega)
      · rw [if_neg h0, if_neg h0]
        by_cases h1 : step % 4 = 1
        · rw [if_pos h1, if_pos h1, getD_map_of_lt d f right hr]
          rw [show (res.map f ++ [f (d.getD right default)])
              = (res ++ [d.getD right default]).map f by simp]
          exact ih _ _ _ _ (by omega)
        · rw [if_neg h1, if_neg h1]
          by_cases h2 : step % 4 = 2
          · rw [if_pos h2, if_pos h2, getD_map_of_lt d f left hl]
            rw [show (f (d.getD left default) :: res.map f)
                = (d.getD left default :: res).map f from rfl]
            exact ih _ _ _ _ hr
          · rw [if_neg h2, if_neg h2, getD_map_of_lt d f left hl]
            rw [show (res.map f ++ [f (d.getD left default)])
                = (res ++ [d.getD left default]).map f by simp]
            exact ih _ _ _ _ hr

lemma interleaveGo_perm {α : Type} [Inhabited α] (d : List α) :
    ∀ (fuel left right step : ℕ) (res : List α),
    fuel = right + 1 - left → 1 ≤ left → left ≤ right + 1 → right < d.length →
    (interleaveGo d fuel left right step res).Perm
      ((d.drop left).take (right + 1 - left) ++ res) := by
  intro fuel
  induction fuel with
  | zero =>
    intro left right step res hf h1 h2 hr
    rw [interleaveGo, ← hf]
    simp
  | succ fuel ih =>
    intro left right step res hf h1 h2 hr
    have hlr : left ≤ right := by omega
    have hright1 : 1 ≤ right := by omega
    simp only [interleaveGo, if_neg (not_lt.mpr hlr)]
    have hl : left < d.length := lt_of_le_of_lt hlr hr
    have htakeR : (d.drop left).take (right + 1 - left)
        = (d.drop left).take (right - left) ++ [d.getD right default] := by
      rw [show right + 1 - left = (right - left) + 1 by omega, List.take_succ,
        List.getElem?_drop, show left + (right - left) = right by omega,
        List.getElem?_eq_getElem hr, List.getD_eq_getElem d default hr]
      rfl
    have htakeL : (d.drop left).take (right + 1 - left)
        = d.getD left default :: (d.drop (left + 1)).take (right - left) := by
      rw [List.drop_eq_getElem_cons hl, show right + 1 - left = (right - left) + 1 by omega,
        List.take_succ_cons, List.getD_eq_getElem d default hl]
    by_cases h0 : step % 4 = 0
    · rw [if_pos h0]
      have hrec := ih left (right - 1) (step + 1) (d.getD right default :: res)
        (by omega) h1 (by omega) (by omega)
      rw [show (right - 1) + 1 - left = right - left by omega] at hrec
      refine hrec.trans (List.Perm.of_eq ?_)
      rw [htakeR, List.append_assoc]
      rfl
    · rw [if_neg h0]
      by_cases h1' : step % 4 = 1
      · rw [if_pos h1']
        have hrec := ih left (right - 1) (step + 1) (res ++ [d.getD right default])
          (by omega) h1 (by omega) (by omega)
        rw [show (right - 1) + 1 - left = right - left by omega] at hrec
        refine hrec.trans ?_
        rw [htakeR, List.append_assoc]
        exact List.Perm.append_left _ List.perm_append_comm
      · rw [if_neg h1']
        by_cases h2' : step % 4 = 2
        · rw [if_pos h2']
          have hrec := ih (left + 1) right (step + 1) (d.getD left default :: res)
            (by omega) (by omega) (by omega) hr
          rw [show right + 1 - (left + 1) = right - left by omega] at hrec
          refine hrec.trans ?_
          rw [htakeL]
          exact List.perm_middle
        · rw [if_neg h2']
          have hrec := ih (left + 1) right (step + 1) (res ++ [d.getD left default])
            (by omega) (by omega) (by omega) hr
          rw [show right + 1 - (left + 1) = right - left by omega] at hrec
          refine hrec.trans ?_
          rw [htakeL, ← List.append_assoc]
          exact (List.perm_append_comm).trans (by simp)

lemma interleaveDigits_perm {α : Type} [Inhabited α] (d : List α) :
    (interleaveDigits d).Perm d := by
  by_cases h : d.length < 2
  · simp [interleaveDigits, h]
  · simp only [interleaveDigits, if_neg h]
    have h2 : 2 ≤ d.length := not_lt.mp h
    have hperm := interleaveGo_perm d (d.length - 1) 1 (d.length - 1) 0
      [d.getD 0 default] (by omega) (by omega) (by omega) (by omega)
    refine hperm.trans ?_
    rw [show d.length - 1 + 1 - 1 = d.length - 1 by omega]
    have htake : (d.drop 1).take (d.length - 1) = d.drop 1 :=
      List.take_of_length_le (by simp)
    rw [htake]
    rcases d with _ | ⟨x, rest⟩
    · simp at h2
    · simp only [List.drop_succ_cons, List.drop_zero, List.getD_cons_zero]
      exact List.perm_append_comm.trans (by simp)

lemma interleaveDigits_length {α : Type} [Inhabited α] (d : List α) :
    (interleaveDigits d).length = d.length :=
  (interleaveDigits_perm d).length_eq

lemma map_getD_range {α : Type} [Inhabited α] (l : List α) :
    (List.range l.length).map (fun i => l.getD i default) = l := by
  apply List.ext_getElem
  · simp
  · intro i h1 h2
    simp only [List.getElem_map, List.getElem_range]
    rw [List.getD_eq_getElem l default h2]

lemma interleaveDigits_eq_map {α : Type} [Inhabited α] (d : List α) :
    interleaveDigits d
      = (interleaveDigits (List.range d.length)).map (fun i => d.getD i default) := by
  by_cases h : d.length < 2
  · rcases d with _ | ⟨x, _ | ⟨y, rest⟩⟩
    · rfl
    · simp [interleaveDigits, List.range_succ]
    · simp at h
      omega
  · simp only [interleaveDigits, List.length_range, if_neg h]
    have h0 : (List.range d.length).getD 0 default = 0 := by
      rw [List.getD_eq_getElem _ _ (by simp; omega), List.getElem_range]
    rw [h0]
    have hmap := interleaveGo_map (List.range d.length) (fun i => d.getD i default)
      (d.length - 1) 1 (d.length - 1) 0 [0] (by simp; omega)
    rw [map_getD_range] at hmap
    simpa using hmap

lemma zip_self_map {α β : Type} (g : α → β) : ∀ (m : List α),
    m.zip (m.map g) = m.map (fun i => (i, g i)) := by
  intro m
  induction m with
  | nil => rfl
  | cons x m ih => simp [ih]

lemma foldl_set_length {α : Type} : ∀ (ps : List (ℕ × α)) (res : List α),
    (ps.foldl (fun r p => r.set p.1 p.2) res).length = res.length := by
  intro ps
  induction ps with
  | nil => intro res; rfl
  | cons p ps ih => intro res; rw [List.foldl_cons, ih, List.length_set]

lemma foldl_set_getD {α : Type} [Inhabited α] (g : ℕ → α) :
    ∀ (m : List ℕ) (res : List α), m.Nodup → (∀ i ∈ m, i < res.length) → ∀ (j : ℕ),
    ((m.map (fun i => (i, g i))).foldl (fun r p => r.set p.1 p.2) res).getD j default
      = if j ∈ m then g j else res.getD j default := by
  intro m
  induction m with
  | nil => intro res _ _ j; simp
  | cons i m ih =>
    intro res hnd hb j
    have hnd' := List.nodup_cons.mp hnd
    have hilt : i < res.length := hb i (List.mem_cons_self i m)
    simp only [List.map_cons, List.foldl_cons]
    rw [ih (res.set i (g i)) hnd'.2
      (fun x hx => by rw [List.length_set]; exact hb x (List.mem_cons_of_mem _ hx)) j]
    by_cases hj : j ∈ m
    · rw [if_pos hj, if_pos (List.mem_cons_of_mem _ hj)]
    · rw [if_neg hj]
      by_cases hji : j = i
      · subst hji
        rw [if_pos (List.mem_cons_self j m)]
        rw [List.getD_eq_getElem?_getD, List.getElem?_set_eq_of_lt (g j) hilt]
        rfl
      · rw [if_neg (by simp [hji, hj]), List.getD_eq_getElem?_getD,
          List.getElem?_set_ne (fun hy => hji hy.symm), ← List.getD_eq_getElem?_getD]

lemma deinterleave_interleave {α : Type} [Inhabited α] (d : List α) :
    deinterleaveDigits (interleaveDigits d) = d := by
  by_cases h : d.length < 2
  · have h1 : interleaveDigits d = d := by simp [interleaveDigits, h]
    rw [h1]
    simp [deinterleaveDigits, h]
  · have hlen : (interleaveDigits d).length = d.length := interleaveDigits_length d
    have hmperm : (interleaveDigits (List.range d.length)).Perm (List.range d.length) :=
      interleaveDigits_perm _
    have hmnodup : (interleaveDigits (List.range d.length)).Nodup :=
      hmperm.nodup_iff.mpr (List.nodup_range d.length)
    have hmmem : ∀ i, i ∈ interleaveDigits (List.range d.length) ↔ i < d.length :=
      fun i => by rw [hmperm.mem_iff, List.mem_range]
    simp only [deinterleaveDigits, hlen, if_neg h]
    rw [interleaveDigits_eq_map d, zip_self_map]
    apply List.ext_getElem
    · rw [foldl_set_length]
      simp
    · intro j hj1 hj2
      rw [foldl_set_length, List.length_replicate] at hj1
      rw [← List.getD_eq_getElem _ default (by rw [foldl_set_length]; simpa using hj1),
        foldl_set_getD (fun i => d.getD i default) _ _ hmnodup
          (fun i hi => by rw [List.length_replicate]; exact (hmmem i).mp hi) j,
        if_pos ((hmmem j).mpr hj1), List.getD_eq_getElem d default hj2]

/-! ## Claim C1 -/

/-- C1: for every non-negative integer `x` and every requested minimum
length `m ≥ 0`, the codec round-trips: `fromBase128 (toBase128 x) = x`,
and the full index pipeline
`decodeSyllableIndices (deinterleaveDigits (interleaveDigits (encodeToSyllableIndices x m))) = x`;
padding with leading zero digits does not change the decoded value. -/
theorem c1_codec_roundtrip (x : ℤ) (hx : 0 ≤ x) (m : ℕ) :
    fromBase128 (toBase128 x) = x ∧
    decodeSyllableIndices
      (deinterleaveDigits (interleaveDigits (encodeToSyllableIndices x m))) = x := by
  refine ⟨fromBase128_toBase128 x hx, ?_⟩
  simp only [decodeSyllableIndices]
  rw [deinterleave_interleave]
  exact encodeToSyllableIndices_val x hx m

/-- Witness for C1 at the spec's scenario value 9622927, with padding to 5
digits. -/
theorem c1_codec_roundtrip_witness :
    0 ≤ (9622927 : ℤ) ∧
    (fromBase128 (toBase128 9622927) = 9622927 ∧
      decodeSyllableIndices
        (deinterleaveDigits (interleaveDigits (encodeToSyllableIndices 9622927 5)))
        = 9622927) :=
  ⟨by norm_num, c1_codec_roundtrip 9622927 (by norm_num) 5⟩

/-! ## Claim C2 -/

/-- C2: for every sequence length `L` with `0 ≤ L ≤ 32` and every
assignment of digit values, `deinterleaveDigits (interleaveDigits digits) =
digits`.  (The underlying lemma holds for every length; the claim's bound 32
is kept as stated.) -/
theorem c2_interleave_involution (digits : List ℤ) (_h : digits.length ≤ 32) :
    deinterleaveDigits (interleaveDigits digits) = digits :=
  deinterleave_interleave digits

/-- Witness for C2 at the source's 9-digit example. -/
theorem c2_interleave_involution_witness :
    ([1, 2, 3, 4, 5, 6, 7, 8, 9] : List ℤ).length ≤ 32 ∧
    deinterleaveDigits (interleaveDigits ([1, 2, 3, 4, 5, 6, 7, 8, 9] : List ℤ))
      = [1, 2, 3, 4, 5, 6, 7, 8, 9] :=
  ⟨by decide, c2_interleave_involution _ (by decide)⟩

/-! ## Claim C5

The claim says the encode step rejects exactly on negative input.  The code
has no rejection path at all: on negative input the `while (remaining > 0)`
loop never runs and `toBase128` returns the empty digit list (which decodes
to 0), so the "fails (rejects) on negative input" part is false; the other
parts (0 encodes to `[0]`, never empty for non-negative input, digits in
`[0, 128)`) hold. -/

/-- C5 counterexample: at the concrete negative input `-1` the encode step
does not fail — it returns the empty digit sequence, which decodes to `0`. -/
theorem c5_counterexample : toBase128 (-1) = [] ∧ fromBase128 (toBase128 (-1)) = 0 := by
  constructor <;> rfl

/-- C5 amended: the encode step never rejects; `0` encodes to the single
digit `[0]`; a negative input yields the empty digit sequence; every
non-negative input yields a non-empty sequence whose digits all lie in
`[0, 128)`. -/
theorem c5_encode_total (x : ℤ) :
    toBase128 0 = [0] ∧
    (x < 0 → toBase128 x = []) ∧
    (0 ≤ x → toBase128 x ≠ [] ∧ ∀ d ∈ toBase128 x, 0 ≤ d ∧ d < 128) :=
  ⟨rfl, fun h => toBase128_of_neg x h,
    fun h => ⟨toBase128_ne_nil x h, toBase128_bounds x⟩⟩

/-- Witness for the amended C5 at `-2` and `300`. -/
theorem c5_encode_total_witness :
    toBase128 (-2) = [] ∧
    (toBase128 300 ≠ [] ∧ ∀ d ∈ toBase128 300, 0 ≤ d ∧ d < 128) :=
  ⟨(c5_encode_total (-2)).2.1 (by norm_num), (c5_encode_total 300).2.2 (by norm_num)⟩

/-! ## Claim C9 -/

/-- C9: `interleaveDigits` returns sequences of length 0 or 1 unchanged
(the four-phase consuming cycle of the claim is the definition of
`interleaveGo`, entered with `left = 1`, `right = n - 1`, phase wrapping
modulo 4); the output always has the same length and the same multiset of
digit values as the input; and the source's worked example holds:
`[1..9]` interleaves to `[4, 7, 2, 9, 1, 8, 3, 6, 5]`. -/
theorem c9_interleave_shape :
    (∀ (d : List ℤ), d.length ≤ 1 → interleaveDigits d = d) ∧
    (∀ (d : List ℤ), (interleaveDigits d).length = d.length
      ∧ (interleaveDigits d).Perm d) ∧
    interleaveDigits ([1, 2, 3, 4, 5, 6, 7, 8, 9] : List ℤ) = [4, 7, 2, 9, 1, 8, 3, 6, 5] := by
  refine ⟨?_, fun d => ⟨interleaveDigits_length d, interleaveDigits_perm d⟩, by decide⟩
  intro d hd
  have h2 : d.length < 2 := by omega
  simp [interleaveDigits, h2]

/-- Witness for C9's length-0/1 clauses at `[]` and `[5]`. -/
theorem c9_interleave_shape_witness :
    (([] : List ℤ).length ≤ 1 ∧ interleaveDigits ([] : List ℤ) = []) ∧
    (([5] : List ℤ).length ≤ 1 ∧ interleaveDigits ([5] : List ℤ) = [5]) :=
  ⟨⟨by decide, c9_interleave_shape.1 [] (by decide)⟩,
    ⟨by decide, c9_interleave_shape.1 [5] (by decide)⟩⟩

/-! ## Lemmas about the greedy parser -/

lemma greedyStep_some_length (inv : List String) (rem : List Char) (syl : String)
    (rest : List Char) (h : greedyStep inv rem = some (syl, rest)) :
    rest.length + 2 ≤ rem.length := by
  simp only [greedyStep] at h
  split_ifs at h with h1 h2 h3
  · rw [Option.some.injEq, Prod.mk.injEq] at h
    obtain ⟨-, hr⟩ := h
    subst hr
    simp only [List.length_drop]
    omega
  · rw [Option.some.injEq, Prod.mk.injEq] at h
    obtain ⟨-, hr⟩ := h
    subst hr
    simp only [List.length_drop]
    omega
  · rw [Option.some.injEq, Prod.mk.injEq] at h
    obtain ⟨-, hr⟩ := h
    subst hr
    simp only [List.length_drop]
    omega

lemma greedyStep_nil (inv : List String) : greedyStep inv [] = none := by
  simp [greedyStep]

lemma take_asString_mem (inv : List String) (rem : List Char) (k : ℕ)
    (hk : k ≤ rem.length) (hmem : (rem.take k).asString ∈ inv) :
    ∃ s ∈ inv, s.length = k ∧ ∃ t, s.data ++ t = rem := by
  refine ⟨(rem.take k).asString, hmem, ?_, rem.drop k, ?_⟩
  · show (rem.take k).length = k
    rw [List.length_take]
    omega
  · show rem.take k ++ rem.drop k = rem
    exact List.take_append_drop k rem

lemma greedyStep_none_iff (inv : List String) (rem : List Char) :
    greedyStep inv rem = none ↔ noTriedPrefix inv rem := by
  constructor
  · intro h s hs hlen hpre
    obtain ⟨t, ht⟩ := hpre
    have hslen : s.length ≤ rem.length := by
      rw [← ht, List.length_append]
      exact Nat.le_add_right _ _
    have htake : rem.take s.length = s.data := by
      rw [← ht]
      exact List.take_left s.data t
    have hmem2 : (rem.take s.length).asString ∈ inv := by
      rw [htake]
      show s ∈ inv
      exact hs
    simp only [greedyStep] at h
    split_ifs at h with h1 h2 h3
    rcases hlen with h4 | h4 | h4
    · exact h1 ⟨h4 ▸ hslen, h4 ▸ hmem2⟩
    · exact h2 ⟨h4 ▸ hslen, h4 ▸ hmem2⟩
    · exact h3 ⟨h4 ▸ hslen, h4 ▸ hmem2⟩
  · intro hnp
    simp only [greedyStep]
    split_ifs with h1 h2 h3
    · exfalso
      obtain ⟨s, hs, hlen, hpre⟩ := take_asString_mem inv rem 4 h1.1 h1.2
      exact hnp s hs (Or.inl hlen) hpre
    · exfalso
      obtain ⟨s, hs, hlen, hpre⟩ := take_asString_mem inv rem 3 h2.1 h2.2
      exact hnp s hs (Or.inr (Or.inl hlen)) hpre
    · exfalso
      obtain ⟨s, hs, hlen, hpre⟩ := take_asString_mem inv rem 2 h3.1 h3.2
      exact hnp s hs (Or.inr (Or.inr hlen)) hpre
    · rfl

lemma greedyReaches_of_none (inv : List String) (rem target : List Char)
    (h : greedyStep inv rem = none) (hr : GreedyReaches inv rem target) :
    target = rem := by
  cases hr with
  | refl => rfl
  | step _ syl rest _ hstep _ => rw [h] at hstep; exact Option.noConfusion hstep

lemma greedyReaches_some_iff (inv : List String) (rem : List Char) (syl : String)
    (rest target : List Char) (h : greedyStep inv rem = some (syl, rest)) :
    GreedyReaches inv rem target ↔ (target = rem ∨ GreedyReaches inv rest target) := by
  constructor
  · intro hr
    cases hr with
    | refl => exact Or.inl rfl
    | step _ syl2 rest2 _ hstep hrest =>
      rw [h, Option.some.injEq, Prod.mk.injEq] at hstep
      obtain ⟨-, hr2⟩ := hstep
      exact Or.inr (hr2 ▸ hrest)
  · rintro (rfl | hr)
    · exact GreedyReaches.refl _
    · exact GreedyReaches.step _ syl rest _ h hr

lemma greedyGo_cons_none (inv : List String) (fuel : ℕ) (c : Char) (cs : List Char)
    (h : greedyStep inv (c :: cs) = none) :
    greedyGo inv (fuel + 1) (c :: cs)
      = Except.error (ParseErr.unrecognizedSyllable (c :: cs).asString) := by
  simp only [greedyGo, h]

lemma greedyGo_cons_some (inv : List String) (fuel : ℕ) (c : Char) (cs : List Char)
    (syl : String) (rest : List Char)
    (h : greedyStep inv (c :: cs) = some (syl, rest)) :
    greedyGo inv (fuel + 1) (c :: cs)
      = match greedyGo inv fuel rest with
        | Except.ok syls => Except.ok (syl :: syls)
        | Except.error e => Except.error e := by
  simp only [greedyGo, h]

lemma greedyGo_error_iff (inv : List String) : ∀ (fuel : ℕ) (rem : List Char),
    rem.length ≤ fuel → ∀ (r : String),
    (greedyGo inv fuel rem = Except.error (ParseErr.unrecognizedSyllable r) ↔
      ∃ rem2, GreedyReaches inv rem rem2 ∧ rem2 ≠ [] ∧ greedyStep inv rem2 = none
        ∧ r = rem2.asString) := by
  intro fuel
  induction fuel with
  | zero =>
    intro rem hlen r
    have hnil : rem = [] := by
      cases rem with
      | nil => rfl
      | cons c cs => simp at hlen
    subst hnil
    simp only [greedyGo]
    constructor
    · intro h; exact Except.noConfusion h
    · rintro ⟨rem2, hr, hne, -, -⟩
      exact absurd (greedyReaches_of_none inv [] rem2 (greedyStep_nil inv) hr) hne
  | succ fuel ih =>
    intro rem hlen r
    cases rem with
    | nil =>
      simp only [greedyGo]
      constructor
      · intro h; exact Except.noConfusion h
      · rintro ⟨rem2, hr, hne, -, -⟩
        exact absurd (greedyReaches_of_none inv [] rem2 (greedyStep_nil inv) hr) hne
    | cons c cs =>
      cases hstep : greedyStep inv (c :: cs) with
      | none =>
        rw [greedyGo_cons_none inv fuel c cs hstep]
        constructor
        · intro h
          refine ⟨c :: cs, GreedyReaches.refl _, by simp, hstep, ?_⟩
          have h2 := Except.error.inj h
          injection h2 with h3
          exact h3.symm
        · rintro ⟨rem2, hr, -, -, hreq⟩
          have h2 : rem2 = c :: cs := greedyReaches_of_none inv _ _ hstep hr
          subst h2
          rw [hreq]
      | some p =>
        obtain ⟨syl, rest⟩ := p
        rw [greedyGo_cons_some inv fuel c cs syl rest hstep]
        have hlen2 : rest.length ≤ fuel := by
          have := greedyStep_some_length inv (c :: cs) syl rest hstep
          simp only [List.length_cons] at hlen this
          omega
        have ihr := ih rest hlen2 r
        constructor
        · intro h
          obtain ⟨syls, hres⟩ | ⟨e, hres⟩ :
              (∃ syls, greedyGo inv fuel rest = Except.ok syls)
              ∨ (∃ e, greedyGo inv fuel rest = Except.error e) := by
            cases greedyGo inv fuel rest
            · exact Or.inr ⟨_, rfl⟩
            · exact Or.inl ⟨_, rfl⟩
          · rw [hres] at h
            exact Except.noConfusion h
          · rw [hres] at h
            have he : e = ParseErr.unrecognizedSyllable r := Except.error.inj h
            rw [he] at hres
            obtain ⟨rem2, hr, hne, hnone, hreq⟩ := ihr.mp hres
            exact ⟨rem2, (greedyReaches_some_iff inv _ syl rest rem2 hstep).mpr
              (Or.inr hr), hne, hnone, hreq⟩
        · rintro ⟨rem2, hr, hne, hnone, hreq⟩
          rcases (greedyReaches_some_iff inv _ syl rest rem2 hstep).mp hr with rfl | hr2
          · rw [hstep] at hnone; exact Option.noConfusion hnone
          · rw [ihr.mpr ⟨rem2, hr2, hne, hnone, hreq⟩]

/-! ## Claim C6

The claim describes the cleaning pass as deleting every character that is
not a lowercase letter; the code lower-cases the input first and only then
deletes, so an uppercase version string parses instead of failing.  The
claim's failure iff-condition also lumps the letterless case in with the
remainder-identifying UnparseableVersion error, while the code raises a
distinct no-valid-syllables error there.  Both discrepancies are exhibited
by the counterexample; the error characterization itself (greedy matching
stuck at a nonempty remainder) is proved in the amended theorem. -/

/-- C6 counterexample: with inventory `["bak"]`, the input "BAK" parses to
`["bak"]` although deleting every non-lowercase character (as the claim
describes, without lower-casing first) leaves nothing; and the letterless
input "123" raises the no-valid-syllables error, not the
remainder-identifying UnparseableVersion error the claim's iff would
require. -/
theorem c6_counterexample :
    parseVersionToSyllables ["bak"] "BAK" = Except.ok ["bak"] ∧
    "BAK".data.filter isLowerAlpha = [] ∧
    parseVersionToSyllables ["bak"] "123" = Except.error ParseErr.noValidSyllables :=
  ⟨rfl, rfl, rfl⟩

/-- C6 amended: the parser first lower-cases the input and then deletes
every character that is not a lowercase letter, then repeatedly matches the
longest inventory syllable of length 4, then 3, then 2 as a prefix of the
remaining stream; it raises the UnparseableVersion error identifying the
offending remainder `r` if and only if the cleaned stream is nonempty and
the greedy consumption reaches a nonempty remainder (with value `r`) of
which no inventory syllable of any tried length is a prefix (an empty or
letterless input instead raises a distinct empty-version error). -/
theorem c6_parser_error_characterization (inventory : List String)
    (version : String) (r : String) :
    parseVersionToSyllables inventory version
        = Except.error (ParseErr.unrecognizedSyllable r)
    ↔ (cleanLetters version ≠ [] ∧
        ∃ rem, GreedyReaches inventory (cleanLetters version) rem ∧ rem ≠ []
          ∧ noTriedPrefix inventory rem ∧ r = rem.asString) := by
  simp only [parseVersionToSyllables]
  by_cases hv : version = ""
  · rw [if_pos hv]
    constructor
    · intro h
      have := Except.error.inj h
      exact ParseErr.noConfusion this
    · rintro ⟨hne, -⟩
      exact absurd (by subst hv; rfl) hne
  · rw [if_neg hv]
    by_cases hc : cleanLetters version = []
    · rw [if_pos hc]
      constructor
      · intro h
        have := Except.error.inj h
        exact ParseErr.noConfusion this
      · rintro ⟨hne, -⟩
        exact absurd hc hne
    · rw [if_neg hc]
      rw [greedyGo_error_iff inventory (cleanLetters version).length
        (cleanLetters version) le_rfl r]
      constructor
      · rintro ⟨rem2, hr, hne, hnone, hreq⟩
        exact ⟨hc, rem2, hr, hne, (greedyStep_none_iff _ _).mp hnone, hreq⟩
      · rintro ⟨-, rem2, hr, hne, hnp, hreq⟩
        exact ⟨rem2, hr, hne, (greedyStep_none_iff _ _).mpr hnp, hreq⟩

/-! ## Claim C10 -/

/-- C10: for every input string that is empty or contains no ASCII letters
after lower-casing, `parseVersionToSyllables` throws (returns an error, not
an empty syllable list), and hence `decodeVersion` never returns a number
for such input. -/
theorem c10_letterless_rejected (inventory : List String)
    (digitInterleaving : Bool) (version : String)
    (h : cleanLetters version = []) :
    (∃ e, parseVersionToSyllables inventory version = Except.error e) ∧
    (∃ e, decodeVersion inventory digitInterleaving version = Except.error e) := by
  have hp : ∃ e, parseVersionToSyllables inventory version = Except.error e := by
    by_cases hv : version = ""
    · exact ⟨ParseErr.emptyVersion, by simp [parseVersionToSyllables, hv]⟩
    · exact ⟨ParseErr.noValidSyllables, by simp [parseVersionToSyllables, hv, h]⟩
  obtain ⟨e, he⟩ := hp
  refine ⟨⟨e, he⟩, ⟨e, ?_⟩⟩
  simp only [decodeVersion, he, bind, Except.bind]

/-- Witness for C10 at a separator-only input. -/
theorem c10_letterless_rejected_witness :
    cleanLetters "1-2 3" = [] ∧
    ((∃ e, parseVersionToSyllables ["bak"] "1-2 3" = Except.error e) ∧
      (∃ e, decodeVersion ["bak"] true "1-2 3" = Except.error e)) :=
  ⟨by decide, c10_letterless_rejected ["bak"] true "1-2 3" (by decide)⟩

/-! ## Lemmas about the balancer clamp -/

lemma clamp_lt_one (x : ℚ) (h : x < 1) : max (1/2) (min 2 x) < 1 :=
  max_lt (by norm_num) (lt_of_le_of_lt (min_le_right 2 x) h)

lemma one_lt_clamp (x : ℚ) (h : 1 < x) : 1 < max (1/2) (min 2 x) :=
  lt_of_lt_of_le (lt_min (by norm_num) h) (le_max_right _ _)

/-! ## Claim C8 -/

/-- C8: for every balancer state, `getDiversityMultipliers` returns for
each category exactly `clamp(1 − (actual% − target%)/100 × strength, 0.5,
2.0)`; consequently (the constructor never stores a non-positive strength,
so positivity is assumed) a category above its target gets a multiplier
below 1 and one below its target a multiplier above 1; and with a full
100-entry history composed entirely of one category, that category's
multiplier is < 1 while every other (zero-usage) category's is > 1. -/
theorem c8_diversity_multipliers :
    (∀ (b : SeparatorBalancer) (sep : SepCat),
      b.getDiversityMultipliers sep
        = claimedMultiplier (b.getCurrentDistribution sep) (b.targets sep)
            b.diversityStrength) ∧
    (∀ (b : SeparatorBalancer) (sep : SepCat), 0 < b.diversityStrength →
      (b.targets sep < b.getCurrentDistribution sep →
        b.getDiversityMultipliers sep < 1) ∧
      (b.getCurrentDistribution sep < b.targets sep →
        1 < b.getDiversityMultipliers sep)) ∧
    (∀ (c c2 : SepCat) (s : ℚ), 0 < s → c2 ≠ c →
      (fullHistoryBalancer c s).getDiversityMultipliers c < 1 ∧
      1 < (fullHistoryBalancer c s).getDiversityMultipliers c2) := by
  have hform : ∀ (b : SeparatorBalancer) (sep : SepCat),
      b.getDiversityMultipliers sep
        = claimedMultiplier (b.getCurrentDistribution sep) (b.targets sep)
            b.diversityStrength := fun b sep => rfl
  have hover : ∀ (b : SeparatorBalancer) (sep : SepCat), 0 < b.diversityStrength →
      (b.targets sep < b.getCurrentDistribution sep →
        b.getDiversityMultipliers sep < 1) ∧
      (b.getCurrentDistribution sep < b.targets sep →
        1 < b.getDiversityMultipliers sep) := by
    intro b sep hs
    constructor
    · intro hgt
      rw [hform, claimedMultiplier]
      refine clamp_lt_one _ ?_
      have h1 : 0 < (b.getCurrentDistribution sep - b.targets sep) / 100
          * b.diversityStrength :=
        mul_pos (div_pos (by linarith) (by norm_num)) hs
      linarith
    · intro hlt
      rw [hform, claimedMultiplier]
      refine one_lt_clamp _ ?_
      have h1 : (b.getCurrentDistribution sep - b.targets sep) / 100
          * b.diversityStrength < 0 :=
        mul_neg_of_neg_of_pos (div_neg_of_neg_of_pos (by linarith) (by norm_num)) hs
      linarith
  refine ⟨hform, hover, ?_⟩
  intro c c2 s hs hne
  have hdistc : (fullHistoryBalancer c s).getCurrentDistribution c = 100 := by
    simp [fullHistoryBalancer, SeparatorBalancer.getCurrentDistribution,
      List.count_replicate]
  have hdistc2 : (fullHistoryBalancer c s).getCurrentDistribution c2 = 0 := by
    simp [fullHistoryBalancer, SeparatorBalancer.getCurrentDistribution,
      List.count_replicate, hne]
  have htc : (fullHistoryBalancer c s).targets c < 100 := by
    cases c <;> norm_num [fullHistoryBalancer, defaultTargets]
  have htc2 : (0 : ℚ) < (fullHistoryBalancer c s).targets c2 := by
    cases c2 <;> norm_num [fullHistoryBalancer, defaultTargets]
  constructor
  · exact (hover (fullHistoryBalancer c s) c hs).1 (by rw [hdistc]; exact htc)
  · exact (hover (fullHistoryBalancer c s) c2 hs).2 (by rw [hdistc2]; exact htc2)

/-- Witness for C8's conditional clauses at strength 0.3 (the constructor
default) with a dot-only history. -/
theorem c8_diversity_multipliers_witness :
    (0 < (3/10 : ℚ) ∧ SepCat.space ≠ SepCat.dot) ∧
    ((fullHistoryBalancer SepCat.dot (3/10)).getDiversityMultipliers SepCat.dot < 1 ∧
      1 < (fullHistoryBalancer SepCat.dot (3/10)).getDiversityMultipliers SepCat.space) :=
  ⟨⟨by norm_num, by decide⟩,
    c8_diversity_multipliers.2.2 SepCat.dot SepCat.space (3/10) (by norm_num) (by decide)⟩

/-! ## Lemmas about cleaning and decoration -/

lemma jsToLowerChar_of_lower {c : Char} (h : 'a' ≤ c) : jsToLowerChar c = c := by
  rw [jsToLowerChar, if_neg]
  rintro ⟨-, h2⟩
  exact absurd (h.trans h2) (by decide)

lemma clean_of_lower_chars : ∀ (l : List Char), (∀ c ∈ l, 'a' ≤ c ∧ c ≤ 'z') →
    (l.map jsToLowerChar).filter isLowerAlpha = l := by
  intro l
  induction l with
  | nil => intro _; rfl
  | cons c l ih =>
    intro h
    have hc := h c (List.mem_cons_self c l)
    have hpa : isLowerAlpha c = true := by simp [isLowerAlpha, hc.1, hc.2]
    rw [List.map_cons, jsToLowerChar_of_lower hc.1, List.filter_cons, if_pos hpa,
      ih (fun x hx => h x (List.mem_cons_of_mem _ hx))]

lemma cleanLetters_of_lower (s : String) (h : LowerWord s) : cleanLetters s = s.data :=
  clean_of_lower_chars s.data h

lemma cleanLetters_append (a b : String) :
    cleanLetters (a ++ b) = cleanLetters a ++ cleanLetters b := by
  simp [cleanLetters, String.data_append]

lemma string_join_data (l : List String) :
    (String.join l).data = (l.map String.data).flatten := by
  have haux : ∀ (l : List String) (init : String),
      (l.foldl (fun acc s => acc ++ s) init).data
        = init.data ++ (l.map String.data).flatten := by
    intro l
    induction l with
    | nil => intro init; simp
    | cons s l ih =>
      intro init
      rw [List.foldl_cons, ih, String.data_append]
      simp
  simpa [String.join] using haux l ""

lemma cleanLetters_join_lower (l : List String) (h : ∀ s ∈ l, LowerWord s) :
    cleanLetters (String.join l) = (l.map String.data).flatten := by
  have hchars : ∀ c ∈ (String.join l).data, 'a' ≤ c ∧ c ≤ 'z' := by
    intro c hc
    rw [string_join_data] at hc
    obtain ⟨d, hd, hcd⟩ := List.mem_flatten.mp hc
    obtain ⟨s, hs, rfl⟩ := List.mem_map.mp hd
    exact h s hs c hcd
  exact (clean_of_lower_chars _ hchars).trans (string_join_data l)

lemma cleanLetters_sepString (c : SepCat) : cleanLetters (separatorString c) = [] := by
  cases c <;> rfl

lemma drop_split (syls : List String) (lastPos q : ℕ) (h : lastPos ≤ q) :
    (syls.drop lastPos).take (q - lastPos) ++ syls.drop q = syls.drop lastPos := by
  have h2 : syls.drop q = (syls.drop lastPos).drop (q - lastPos) := by
    rw [List.drop_drop]
    congr 1
    omega
  rw [h2, List.take_append_drop]

lemma cleanLetters_buildGo (syls : List String) (hsyl : ∀ s ∈ syls, LowerWord s) :
    ∀ (placed : List PlacedSep) (lastPos : ℕ) (acc : String),
    (∀ p ∈ placed, ∃ c, p.separator = separatorString c) →
    List.Pairwise (fun a b => a.position ≤ b.position) placed →
    (∀ p ∈ placed, lastPos ≤ p.position) →
    cleanLetters (buildGo syls placed lastPos acc)
      = cleanLetters acc ++ ((syls.drop lastPos).map String.data).flatten := by
  intro placed
  induction placed with
  | nil =>
    intro lastPos acc _ _ _
    simp only [buildGo]
    rw [cleanLetters_append,
      cleanLetters_join_lower _ (fun s hs => hsyl s (List.mem_of_mem_drop hs))]
  | cons p rest ih =>
    intro lastPos acc hsep hpw hge
    obtain ⟨hphead, hptail⟩ := List.pairwise_cons.mp hpw
    simp only [buildGo]
    rw [ih p.position _ (fun q hq => hsep q (List.mem_cons_of_mem _ hq)) hptail hphead]
    obtain ⟨c, hc⟩ := hsep p (List.mem_cons_self p rest)
    rw [cleanLetters_append, cleanLetters_append, hc, cleanLetters_sepString,
      cleanLetters_join_lower _
        (fun s hs => hsyl s (List.mem_of_mem_drop (List.mem_of_mem_take hs)))]
    have hC : ((syls.drop lastPos).map String.data).flatten
        = (((syls.drop lastPos).take (p.position - lastPos)).map String.data).flatten
          ++ ((syls.drop p.position).map String.data).flatten := by
      conv_lhs => rw [← drop_split syls lastPos p.position
        (hge p (List.mem_cons_self p rest))]
      rw [List.map_append, List.flatten_append]
    rw [hC]
    simp [List.append_assoc]

lemma insertByPosition_perm (x : PlacedSep) :
    ∀ (l : List PlacedSep), (insertByPosition x l).Perm (x :: l) := by
  intro l
  induction l with
  | nil => exact List.Perm.refl _
  | cons y ys ih =>
    rw [insertByPosition]
    by_cases h : x.position ≤ y.position
    · rw [if_pos h]
    · rw [if_neg h]
      exact (ih.cons y).trans (List.Perm.swap x y ys)

lemma mem_insertByPosition {a x : PlacedSep} {l : List PlacedSep} :
    a ∈ insertByPosition x l ↔ a = x ∨ a ∈ l :=
  ((insertByPosition_perm x l).mem_iff).trans (by simp)

lemma insertByPosition_sorted (x : PlacedSep) :
    ∀ (l : List PlacedSep), List.Pairwise (fun a b => a.position ≤ b.position) l →
    List.Pairwise (fun a b => a.position ≤ b.position) (insertByPosition x l) := by
  intro l
  induction l with
  | nil => intro _; simp [insertByPosition]
  | cons y ys ih =>
    intro hp
    obtain ⟨hy, hys⟩ := List.pairwise_cons.mp hp
    rw [insertByPosition]
    by_cases h : x.position ≤ y.position
    · rw [if_pos h]
      refine List.pairwise_cons.mpr ⟨?_, hp⟩
      intro b hb
      rcases List.mem_cons.mp hb with rfl | hb
      · exact h
      · exact h.trans (hy b hb)
    · rw [if_neg h]
      refine List.pairwise_cons.mpr ⟨?_, ih hys⟩
      intro b hb
      rcases mem_insertByPosition.mp hb with rfl | hb
      · omega
      · exact hy b hb

lemma sortByPosition_perm : ∀ (l : List PlacedSep), (sortByPosition l).Perm l := by
  intro l
  induction l with
  | nil => exact List.Perm.refl _
  | cons x l ih =>
    simp only [sortByPosition, List.foldr_cons]
    exact (insertByPosition_perm x _).trans
      ((show sortByPosition l = l.foldr insertByPosition [] from rfl) ▸ ih.cons x)

lemma sortByPosition_sorted : ∀ (l : List PlacedSep),
    List.Pairwise (fun a b => a.position ≤ b.position) (sortByPosition l) := by
  intro l
  induction l with
  | nil => simp [sortByPosition]
  | cons x l ih =>
    simp only [sortByPosition, List.foldr_cons]
    exact insertByPosition_sorted x _ ih

lemma foldl_preserve {α β : Type} (P : β → Prop) (f : β → α → β) :
    ∀ (l : List α) (init : β), P init → (∀ st a, a ∈ l → P st → P (f st a)) →
    P (l.foldl f init) := by
  intro l
  induction l with
  | nil => intro init h _; exact h
  | cons a l ih =>
    intro init h hf
    exact ih (f init a) (hf init a (List.mem_cons_self a l) h)
      (fun st b hb => hf st b (List.mem_cons_of_mem _ hb))

lemma chooseSeparatorStr_shape (bal : SeparatorBalancer) (scores : SepCat → ℚ)
    (threshold : ℚ) (ub : Bool) :
    (chooseSeparatorStr bal scores threshold ub).1 = ""
    ∨ ∃ c, (chooseSeparatorStr bal scores threshold ub).1 = separatorString c := by
  cases ub with
  | false =>
    simp only [chooseSeparatorStr, Bool.false_eq_true, if_false]
    cases hw : scoresOrder.foldl
        (fun best c =>
          if threshold ≤ scores c then
            match best with
            | none => some c
            | some b0 => if scores b0 < scores c then some c else best
          else best) none with
    | none => left; rfl
    | some w => right; exact ⟨w, rfl⟩
  | true =>
    simp only [chooseSeparatorStr, if_true]
    rcases hc : bal.chooseSeparator scores threshold with ⟨w, b2⟩
    cases w with
    | none => left; rfl
    | some w => right; exact ⟨w, rfl⟩

lemma scanPositions_spec (cfg : Config) (syls : List String) (threshold : ℚ)
    (placed : List PlacedSep) (bal : SeparatorBalancer) :
    ((scanPositions cfg syls threshold placed bal).2.2.1 = -1
      ∧ (scanPositions cfg syls threshold placed bal).2.2.2 = "")
    ∨ (∃ i : ℕ, (scanPositions cfg syls threshold placed bal).2.2.1 = (i : ℤ)
        ∧ 1 ≤ i ∧ i < syls.length
        ∧ (∀ p ∈ placed, ¬ (((p.position : ℤ) - (i : ℤ)).natAbs ≤ 1))
        ∧ ∃ c, (scanPositions cfg syls threshold placed bal).2.2.2
            = separatorString c) := by
  unfold scanPositions
  apply foldl_preserve
    (P := fun st : SeparatorBalancer × ℚ × ℤ × String =>
      (st.2.2.1 = -1 ∧ st.2.2.2 = "")
      ∨ (∃ i : ℕ, st.2.2.1 = (i : ℤ) ∧ 1 ≤ i ∧ i < syls.length
          ∧ (∀ p ∈ placed, ¬ (((p.position : ℤ) - (i : ℤ)).natAbs ≤ 1))
          ∧ ∃ c, st.2.2.2 = separatorString c))
  · exact Or.inl ⟨rfl, rfl⟩
  · intro st a ha hP
    dsimp only
    by_cases hskip : placed.any
        (fun s => decide (((s.position : ℤ) - (a : ℤ)).natAbs ≤ 1)) = true
    · rw [if_pos hskip]
      exact hP
    · rw [if_neg hskip]
      by_cases hupd : st.2.1
            < max (analyzeBoundary cfg (syls.take a) (syls.drop a) (some syls)
                SepCat.apostrophe)
              (max (analyzeBoundary cfg (syls.take a) (syls.drop a) (some syls) SepCat.dot)
                (max (analyzeBoundary cfg (syls.take a) (syls.drop a) (some syls)
                    SepCat.hyphen)
                  (max (analyzeBoundary cfg (syls.take a) (syls.drop a) (some syls)
                      SepCat.space)
                    (max (analyzeBoundary cfg (syls.take a) (syls.drop a) (some syls)
                        SepCat.tilde)
                      (analyzeBoundary cfg (syls.take a) (syls.drop a) (some syls)
                        SepCat.colon)))))
          ∧ (chooseSeparatorStr st.1
              (analyzeBoundary cfg (syls.take a) (syls.drop a) (some syls)) threshold).1
            ≠ ""
      · rw [if_pos hupd]
        right
        refine ⟨a, rfl, ?_, ?_, ?_, ?_⟩
        · have := List.mem_range'_1.mp ha
          omega
        · have := List.mem_range'_1.mp ha
          omega
        · intro p hp
          have h2 := List.any_eq_true.not.mp hskip
          push_neg at h2
          have := h2 p hp
          simpa using this
        · rcases chooseSeparatorStr_shape st.1
              (analyzeBoundary cfg (syls.take a) (syls.drop a) (some syls)) threshold true
            with h | ⟨c, hc⟩
          · exact absurd h hupd.2
          · exact ⟨c, hc⟩
      · rw [if_neg hupd]
        exact hP

lemma smartRoundsGo_spec (cfg : Config) (syls : List String) :
    ∀ (fuel round : ℕ) (placed : List PlacedSep) (bal : SeparatorBalancer),
    (∀ p ∈ placed, SepOK syls p) → FarApart placed →
    ((smartRoundsGo cfg syls fuel round placed bal).1.length ≤ placed.length + fuel
      ∧ (∀ p ∈ (smartRoundsGo cfg syls fuel round placed bal).1, SepOK syls p)
      ∧ FarApart (smartRoundsGo cfg syls fuel round placed bal).1) := by
  intro fuel
  induction fuel with
  | zero =>
    intro round placed bal hok hfar
    simp only [smartRoundsGo]
    exact ⟨by omega, hok, hfar⟩
  | succ fuel ih =>
    intro round placed bal hok hfar
    simp only [smartRoundsGo]
    generalize (if round = 0 then cfg.separators.thresholds.first
      else if round = 1 then cfg.separators.thresholds.second
      else cfg.separators.thresholds.third) = th
    split_ifs with hbreak
    · refine ⟨?_, hok, hfar⟩
      show placed.length ≤ placed.length + (fuel + 1)
      omega
    · rcases scanPositions_spec cfg syls th placed bal
        with ⟨hneg, -⟩ | ⟨i, hpos, h1i, hilen, hfarp, c, hsep⟩
      · exact absurd (Or.inl hneg) hbreak
      · set scan := scanPositions cfg syls th placed bal with hscan
        set newSep : PlacedSep := ⟨scan.2.2.1.toNat, scan.2.2.2, scan.2.1⟩ with hnew
        have hok2 : ∀ p ∈ placed ++ [newSep], SepOK syls p := by
          intro p hp
          rcases List.mem_append.mp hp with hp | hp
          · exact hok p hp
          · rw [List.mem_singleton.mp hp]
            refine ⟨?_, ?_, ⟨c, hsep⟩⟩
            · show 1 ≤ scan.2.2.1.toNat
              rw [hpos]
              omega
            · show scan.2.2.1.toNat < syls.length
              rw [hpos]
              omega
        have hfar2 : FarApart (placed ++ [newSep]) := by
          rw [FarApart, List.pairwise_append]
          refine ⟨hfar, by simp, ?_⟩
          intro a ha b hb
          rw [List.mem_singleton.mp hb]
          have hcl := hfarp a ha
          show 1 < ((a.position : ℤ) - ((newSep.position : ℕ) : ℤ)).natAbs
          rw [hnew]
          show 1 < ((a.position : ℤ) - ((scan.2.2.1.toNat : ℕ) : ℤ)).natAbs
          rw [hpos]
          omega
        have hres := ih (round + 1) (placed ++ [newSep]) scan.1 hok2 hfar2
        refine ⟨?_, hres.2.1, hres.2.2⟩
        have h1 := hres.1
        rw [List.length_append, List.length_singleton] at h1
        omega

lemma cleanLetters_addSmartSeparators (cfg : Config) (bal : SeparatorBalancer)
    (syls : List String) (hsyl : ∀ s ∈ syls, LowerWord s) :
    cleanLetters (addSmartSeparators cfg bal syls).1
      = (syls.map String.data).flatten := by
  simp only [addSmartSeparators]
  by_cases h1 : cfg.separators.enabled = true
  · rw [if_neg (by simp [h1])]
    by_cases h2 : syls.length < 2
    · rw [if_pos h2]
      exact cleanLetters_join_lower syls hsyl
    · rw [if_neg h2]
      obtain ⟨-, hok, -⟩ := smartRoundsGo_spec cfg syls cfg.separators.maxSeparators 0 []
        bal (by simp) (by simp [FarApart])
      by_cases h3 : (smartRoundsGo cfg syls cfg.separators.maxSeparators 0 [] bal).1 = []
      · rw [if_pos h3]
        exact cleanLetters_join_lower syls hsyl
      · rw [if_neg h3]
        show cleanLetters (buildGo syls
          (sortByPosition (smartRoundsGo cfg syls cfg.separators.maxSeparators 0 []
            bal).1) 0 "") = _
        rw [cleanLetters_buildGo syls hsyl _ 0 ""
          (fun p hp => (hok p ((sortByPosition_perm _).mem_iff.mp hp)).2.2)
          (sortByPosition_sorted _) (fun p _ => Nat.zero_le _)]
        simp [cleanLetters]
  · rw [if_pos (by simp [h1])]
    exact cleanLetters_join_lower syls hsyl

lemma greedyGo_nil_any_fuel (inv : List String) (fuel : ℕ) :
    greedyGo inv fuel [] = Except.ok [] := by
  cases fuel <;> rfl

lemma greedyGo_step (inv : List String) (fuel : ℕ) (rem : List Char) (syl : String)
    (rest : List Char) (h : greedyStep inv rem = some (syl, rest)) :
    greedyGo inv (fuel + 1) rem
      = match greedyGo inv fuel rest with
        | Except.ok syls => Except.ok (syl :: syls)
        | Except.error e => Except.error e := by
  cases rem with
  | nil => rw [greedyStep_nil] at h; exact Option.noConfusion h
  | cons c cs => exact greedyGo_cons_some inv fuel c cs syl rest h

lemma greedyGo_fuel_irrel (inv : List String) : ∀ (fuel fuel2 : ℕ) (rem : List Char),
    rem.length ≤ fuel → rem.length ≤ fuel2 →
    greedyGo inv fuel rem = greedyGo inv fuel2 rem := by
  intro fuel
  induction fuel with
  | zero =>
    intro fuel2 rem h1 h2
    have hnil : rem = [] := by
      cases rem with
      | nil => rfl
      | cons c cs => simp at h1
    subst hnil
    rw [greedyGo_nil_any_fuel, greedyGo_nil_any_fuel]
  | succ fuel ih =>
    intro fuel2 rem h1 h2
    cases rem with
    | nil => rw [greedyGo_nil_any_fuel, greedyGo_nil_any_fuel]
    | cons c cs =>
      cases fuel2 with
      | zero => simp at h2
      | succ fuel2 =>
        cases hstep : greedyStep inv (c :: cs) with
        | none =>
          rw [greedyGo_cons_none _ _ _ _ hstep, greedyGo_cons_none _ _ _ _ hstep]
        | some p =>
          obtain ⟨syl, rest⟩ := p
          rw [greedyGo_cons_some _ _ _ _ _ _ hstep, greedyGo_cons_some _ _ _ _ _ _ hstep]
          have hl := greedyStep_some_length inv _ _ _ hstep
          simp only [List.length_cons] at hl h1 h2
          rw [ih fuel2 rest (by omega) (by omega)]

lemma greedyStep_uniform3 (inv : List String) (hlen3 : ∀ s ∈ inv, s.data.length = 3)
    (s : String) (hs : s ∈ inv) (t : List Char) :
    greedyStep inv (s.data ++ t) = some (s, t) := by
  have hs3 : s.data.length = 3 := hlen3 s hs
  have hc1 : ¬ (4 ≤ (s.data ++ t).length
      ∧ ((s.data ++ t).take 4).asString ∈ inv) := by
    rintro ⟨h4, hmem4⟩
    have htl : (((s.data ++ t).take 4).asString).data.length = 3 := hlen3 _ hmem4
    have : ((s.data ++ t).take 4).length = 4 := by
      rw [List.length_take]
      omega
    rw [show (((s.data ++ t).take 4).asString).data = (s.data ++ t).take 4 from rfl]
      at htl
    omega
  have hc2 : 3 ≤ (s.data ++ t).length ∧ ((s.data ++ t).take 3).asString ∈ inv := by
    constructor
    · rw [List.length_append]
      omega
    · rw [List.take_left' hs3]
      show s ∈ inv
      exact hs
  simp only [greedyStep]
  rw [if_neg hc1, if_pos hc2, List.take_left' hs3, List.drop_left' hs3]
  rfl

lemma uniform3_unambiguous (inv : List String)
    (hlen3 : ∀ s ∈ inv, s.data.length = 3) : GreedyUnambiguous inv := by
  intro syls
  induction syls with
  | nil => intro _; rfl
  | cons s rest ih =>
    intro hmem
    have hs := hmem s (List.mem_cons_self s rest)
    have hrest : ∀ x ∈ rest, x ∈ inv := fun x hx => hmem x (List.mem_cons_of_mem _ hx)
    have hs3 : s.data.length = 3 := hlen3 s hs
    have hdata : (String.join (s :: rest)).data = s.data ++ (String.join rest).data := by
      rw [string_join_data, string_join_data, List.map_cons, List.flatten_cons]
    have hstep := greedyStep_uniform3 inv hlen3 s hs (String.join rest).data
    show greedyGo inv ((String.join (s :: rest)).data).length
      ((String.join (s :: rest)).data) = Except.ok (s :: rest)
    rw [hdata, show (s.data ++ (String.join rest).data).length
        = (((String.join rest).data).length + 2) + 1 from by
      rw [List.length_append, hs3]; omega]
    rw [greedyGo_step inv _ _ s (String.join rest).data hstep]
    rw [greedyGo_fuel_irrel inv (((String.join rest).data).length + 2)
      (((String.join rest).data).length) ((String.join rest).data) (by omega) le_rfl]
    rw [ih hrest]

lemma bak_unambiguous : GreedyUnambiguous ["bak"] :=
  uniform3_unambiguous ["bak"] (by decide)

/-! ## Claim C3 -/

/-- C3: for every sequence of syllables taken from a lowercase inventory
that is prefix-unambiguous for greedy longest-match, lower-casing the
string produced by `addSmartSeparators`, deleting every character that is
not a lowercase letter (both performed by `cleanLetters`) and re-segmenting
with the greedy parser reproduces exactly the original syllable sequence —
decoration never alters, duplicates or loses a syllable.  For nonempty
sequences the same holds through the full `parseVersionToSyllables` entry
point.  The statement holds for every configuration and balancer state. -/
theorem c3_stripping_invariance (cfg : Config) (bal : SeparatorBalancer)
    (inventory : List String) (syls : List String)
    (hinvLower : ∀ s ∈ inventory, LowerWord s)
    (hinvNe : ∀ s ∈ inventory, s.data ≠ [])
    (hmem : ∀ s ∈ syls, s ∈ inventory)
    (hunamb : GreedyUnambiguous inventory) :
    greedyGo inventory (cleanLetters (addSmartSeparators cfg bal syls).1).length
        (cleanLetters (addSmartSeparators cfg bal syls).1) = Except.ok syls ∧
    (syls ≠ [] → parseVersionToSyllables inventory
        (addSmartSeparators cfg bal syls).1 = Except.ok syls) := by
  have hsylLower : ∀ s ∈ syls, LowerWord s := fun s hs => hinvLower s (hmem s hs)
  have hclean : cleanLetters (addSmartSeparators cfg bal syls).1
      = (String.join syls).data := by
    rw [cleanLetters_addSmartSeparators cfg bal syls hsylLower, ← string_join_data]
  have hmain : greedyGo inventory
      (cleanLetters (addSmartSeparators cfg bal syls).1).length
      (cleanLetters (addSmartSeparators cfg bal syls).1) = Except.ok syls := by
    rw [hclean]
    exact hunamb syls hmem
  refine ⟨hmain, fun hne => ?_⟩
  have hcne : cleanLetters (addSmartSeparators cfg bal syls).1 ≠ [] := by
    rw [hclean, string_join_data]
    rcases syls with _ | ⟨s, rest⟩
    · exact absurd rfl hne
    · simp only [List.map_cons, List.flatten_cons]
      intro hempty
      rw [List.append_eq_nil] at hempty
      exact hinvNe s (hmem s (List.mem_cons_self s rest)) hempty.1
  have hvne : (addSmartSeparators cfg bal syls).1 ≠ "" := by
    intro hv
    apply hcne
    rw [hv]
    rfl
  simp only [parseVersionToSyllables, if_neg hvne, if_neg hcne]
  exact hmain

/-- Witness for C3 with the concrete lowercase unambiguous inventory
`["bak"]` and the sequence `["bak", "bak"]` under the example
configuration. -/
theorem c3_stripping_invariance_witness :
    parseVersionToSyllables ["bak"]
        (addSmartSeparators exampleConfig freshBalancer ["bak", "bak"]).1
      = Except.ok ["bak", "bak"] :=
  (c3_stripping_invariance exampleConfig freshBalancer ["bak"] ["bak", "bak"]
    (by simp only [LowerWord]; decide) (by decide) (by decide)
    bak_unambiguous).2 (by decide)

/-! ## Claim C7 -/

/-- Counterexample to C7 as stated: `addSmartSeparators` does not always
place the boundary/category combination with the highest score.  The
boundary is selected by the raw maximum score, but the category recorded at
it comes from `chooseSeparator`, which compares balancer-adjusted scores.
On `["bak", "bik"]` the single interior boundary scores space = 420 and
colon = 300 raw, yet after the balancer has recorded one space (the state
`spaceOnceBalancer`) the space multiplier 0.6 and colon multiplier 1.08
flip the adjusted comparison, so the engine emits `"bak:bik"` — the colon,
whose raw score 300 is not the highest. -/
theorem c7_counterexample :
    (addSmartSeparators exampleConfig spaceOnceBalancer ["bak", "bik"]).1 = "bak:bik"
    ∧ analyzeBoundary exampleConfig ["bak"] ["bik"] (some ["bak", "bik"]) SepCat.colon
        = 300
    ∧ analyzeBoundary exampleConfig ["bak"] ["bik"] (some ["bak", "bik"]) SepCat.space
        = 420
    ∧ (300 : ℚ) < 420 := by
  refine ⟨?_, ?_, ?_, by norm_num⟩
  · norm_num +decide [addSmartSeparators, smartRoundsGo, scanPositions, analyzeBoundary,
      getRuleBPosition, ruleBUpdate, chooseSeparatorStr, SeparatorBalancer.chooseSeparator,
      SeparatorBalancer.adjustScores, SeparatorBalancer.getDiversityMultipliers,
      SeparatorBalancer.getCurrentDistribution, SeparatorBalancer.recordUsage, scoresOrder,
      defaultTargets, separatorString, exampleConfig, exampleScoring, exampleInventory,
      freshBalancer, spaceOnceBalancer, isVowel, lastCharOf, firstCharOf, isHeavySyllable,
      getEnding, hasExactRhyme, hasPartialRhyme, checkClusterDifficulty,
      samePlaceOfArticulation, jsToLowerChar, List.range', buildGo, sortByPosition,
      insertByPosition, max_def, min_def]
  · norm_num +decide [analyzeBoundary, getRuleBPosition, ruleBUpdate, isVowel,
      lastCharOf, firstCharOf, isHeavySyllable, getEnding, hasExactRhyme,
      hasPartialRhyme, checkClusterDifficulty, samePlaceOfArticulation,
      exampleConfig, exampleScoring, jsToLowerChar, max_def, min_def]
  · norm_num +decide [analyzeBoundary, getRuleBPosition, ruleBUpdate, isVowel,
      lastCharOf, firstCharOf, isHeavySyllable, getEnding, hasExactRhyme,
      hasPartialRhyme, checkClusterDifficulty, samePlaceOfArticulation,
      exampleConfig, exampleScoring, jsToLowerChar, max_def, min_def]

/-- C7 (amended): the structural guarantees of `addSmartSeparators` that do
hold.  For every configuration, balancer state and syllable sequence the
round loop places at most `maxSeparators` separators; every placed
separator sits at an interior boundary (position in `[1, length)`) and its
string is one of the six separator strings; placed separators are pairwise
more than one position apart (the skip rule); with fewer than 2 syllables,
or with the separator engine disabled, or when no round places anything,
the output is exactly the syllables concatenated with no separators — the
engine never fails.  (Boundary selection uses the raw maximum score, but
the emitted category at the chosen boundary comes from balancer-adjusted
scores, so it need not be the raw-highest-scoring combination.) -/
theorem c7_placement_bounds (cfg : Config) (bal : SeparatorBalancer)
    (syls : List String) :
    (smartRoundsGo cfg syls cfg.separators.maxSeparators 0 [] bal).1.length
        ≤ cfg.separators.maxSeparators
    ∧ (∀ p ∈ (smartRoundsGo cfg syls cfg.separators.maxSeparators 0 [] bal).1,
        SepOK syls p)
    ∧ FarApart (smartRoundsGo cfg syls cfg.separators.maxSeparators 0 [] bal).1
    ∧ (syls.length < 2 → (addSmartSeparators cfg bal syls).1 = String.join syls)
    ∧ (¬cfg.separators.enabled → (addSmartSeparators cfg bal syls).1 = String.join syls)
    ∧ ((smartRoundsGo cfg syls cfg.separators.maxSeparators 0 [] bal).1 = [] →
        (addSmartSeparators cfg bal syls).1 = String.join syls) := by
  have hspec := smartRoundsGo_spec cfg syls cfg.separators.maxSeparators 0 [] bal
    (by intro p hp; exact absurd hp (List.not_mem_nil p)) List.Pairwise.nil
  refine ⟨by simpa using hspec.1, hspec.2.1, hspec.2.2, ?_, ?_, ?_⟩
  · intro hlen
    by_cases he : cfg.separators.enabled
    · unfold addSmartSeparators
      rw [if_neg (by simp [he]), if_pos hlen]
    · unfold addSmartSeparators
      rw [if_pos (by simp [he])]
  · intro he
    unfold addSmartSeparators
    rw [if_pos (by simp [he])]
  · intro hrun
    by_cases he : cfg.separators.enabled
    · by_cases hlen : syls.length < 2
      · unfold addSmartSeparators
        rw [if_neg (by simp [he]), if_pos hlen]
      · unfold addSmartSeparators
        rw [if_neg (by simp [he]), if_neg hlen]
        show (if (smartRoundsGo cfg syls cfg.separators.maxSeparators 0 [] bal).1 = []
          then (String.join syls,
            (smartRoundsGo cfg syls cfg.separators.maxSeparators 0 [] bal).2)
          else _).1 = String.join syls
        rw [if_pos hrun]
    · unfold addSmartSeparators
      rw [if_pos (by simp [he])]

/-- Witness for C7 (amended) at the example configuration, the fresh
balancer and a single-syllable sequence. -/
theorem c7_placement_bounds_witness :
    (["bak"] : List String).length < 2
    ∧ (addSmartSeparators exampleConfig freshBalancer ["bak"]).1
        = String.join ["bak"] :=
  ⟨by decide,
    (c7_placement_bounds exampleConfig freshBalancer ["bak"]).2.2.2.1 (by decide)⟩

/-! ## Claim C4 -/

set_option maxHeartbeats 8000000 in
set_option maxRecDepth 8000 in
/-- Counterexample to C4 as stated: with smart separators enabled,
`generateVersion` is not deterministic across calls.  The module-level
balancer records a usage at every evaluated boundary, so a second call with
the identical timestamp 117000 and identical options (explicit build
interval 900) sees a mutated balancer state: the first call returns
`"bak bik"`, the second `"bak:bik"`. -/
theorem c4_counterexample :
    (generateVersion exampleConfig exampleInventory freshBalancer 117000
        exampleOptions).map Prod.fst = some "bak bik"
    ∧ ((generateVersion exampleConfig exampleInventory freshBalancer 117000
          exampleOptions).bind
        (fun r => generateVersion exampleConfig exampleInventory r.2 117000
          exampleOptions)).map Prod.fst = some "bak:bik"
    ∧ ("bak bik" : String) ≠ "bak:bik" := by
  refine ⟨?_, ?_, by decide⟩ <;>
  norm_num +decide [generateVersion, exampleOptions, encodeToSyllableIndices, toBase128,
    toBase128Go, interleaveDigits, interleaveGo,
    addSmartSeparators, smartRoundsGo, scanPositions, analyzeBoundary,
    getRuleBPosition, ruleBUpdate, chooseSeparatorStr, SeparatorBalancer.chooseSeparator,
    SeparatorBalancer.adjustScores, SeparatorBalancer.getDiversityMultipliers,
    SeparatorBalancer.getCurrentDistribution, SeparatorBalancer.recordUsage, scoresOrder,
    defaultTargets, separatorString, exampleConfig, exampleScoring, exampleInventory,
    freshBalancer, isVowel, lastCharOf, firstCharOf, isHeavySyllable,
    getEnding, hasExactRhyme, hasPartialRhyme, checkClusterDifficulty,
    samePlaceOfArticulation, jsToLowerChar, List.range', buildGo, sortByPosition,
    insertByPosition, max_def, min_def, Int.fdiv]

/-- C4 (amended): `generateVersion` is deterministic across calls whenever
smart separators are off (the option, or failing that the configuration,
resolves to `false`): the codec, permutation and mapping path reads no
mutable state, so running the call a second time on the state the first
call left behind returns exactly the first call's result, and the balancer
state is left untouched by every defined call.  With smart separators on,
determinism fails (`c4` counterexample): the balancer records a usage at
every evaluated boundary, mutating global state between calls. -/
theorem c4_nonsmart_deterministic (cfg : Config) (inventory : List String)
    (bal : SeparatorBalancer) (ts : ℤ) (opts : GenerateOptions)
    (h : opts.smartSeparators.getD cfg.separators.enabled = false) :
    (generateVersion cfg inventory bal ts opts).bind
        (fun r => generateVersion cfg inventory r.2 ts opts)
      = generateVersion cfg inventory bal ts opts
    ∧ ∀ r, generateVersion cfg inventory bal ts opts = some r → r.2 = bal := by
  have hchar : ∀ b : SeparatorBalancer,
      generateVersion cfg inventory b ts opts
        = (generateVersion cfg inventory bal ts opts).map (fun r => (r.1, b)) := by
    intro b
    simp only [generateVersion, h]
    cases hbi : opts.buildInterval with
    | some b0 => cases opts.hyphenated <;> simp
    | none =>
      cases ha : opts.adaptiveCompression.getD cfg.encoding.adaptiveCompression
      · cases opts.hyphenated <;> simp [ha]
      · simp [ha]
  have h2 : ∀ r, generateVersion cfg inventory bal ts opts = some r → r.2 = bal := by
    intro r hr
    have h4 : (some r : Option (String × SeparatorBalancer)) = some (r.1, bal) := by
      rw [← hr, hchar bal, hr]
      rfl
    have h5 := Option.some.inj h4
    rw [h5]
  refine ⟨?_, h2⟩
  cases hg : generateVersion cfg inventory bal ts opts with
  | none => simp
  | some r =>
    have hr2 : r.2 = bal := h2 r hg
    simp only [Option.some_bind]
    rw [hr2]
    exact hg

/-- Witness for C4 (amended): two plain-mode calls at timestamp 117000
with the example configuration agree. -/
theorem c4_nonsmart_deterministic_witness :
    plainOptions.smartSeparators.getD exampleConfig.separators.enabled = false
    ∧ (generateVersion exampleConfig exampleInventory freshBalancer 117000
          plainOptions).bind
        (fun r => generateVersion exampleConfig exampleInventory r.2 117000
          plainOptions)
      = generateVersion exampleConfig exampleInventory freshBalancer 117000
          plainOptions :=
  ⟨by decide, (c4_nonsmart_deterministic exampleConfig exampleInventory freshBalancer
    117000 plainOptions (by decide)).1⟩

end PhoneticVersioning
